import Mathlib

/-!
Verification development for the better-env repository: a shallow embedding of
the provider-adapter protocol and environment-synchronization runtime
(dotenv parsing, provider output parsers, the process-executor model, the
orchestration functions, and the concrete fly/cloudflare/convex/vercel
adapters), together with theorems settling the specification claims.

JavaScript records (plain objects with string keys) are embedded as
insertion-ordered association lists; `recordSet` mirrors `obj[k] = v`
(overwrite in place, else append), `recordGet` mirrors property lookup,
`jsObjectEntries` mirrors the `Object.entries` ordering (integer-like keys
first, ascending, then the others in insertion order).
-/

namespace BetterEnv

/-- `obj[k] = v` on a JS object embedded as an insertion-ordered assoc list:
overwrite the value in place when the key is present, else append. -/
def recordSet : List (String × String) → String → String → List (String × String)
  | [], k, v => [(k, v)]
  | p :: rest, k, v => if p.1 == k then (k, v) :: rest else p :: recordSet rest k v

/-- Property lookup on a JS object (first matching entry). -/
def recordGet (r : List (String × String)) (k : String) : Option String :=
  (r.find? (fun p => p.1 == k)).map (fun p => p.2)

/-- `Object.hasOwn(r, k)`. -/
def recordHasOwn (r : List (String × String)) (k : String) : Bool :=
  (recordGet r k).isSome

/-- `delete r[k]`. -/
def recordDelete (r : List (String × String)) (k : String) : List (String × String) :=
  r.filter (fun p => p.1 != k)

/-- Value attached to the last occurrence of `k` in an assoc list. -/
def assocLast (r : List (String × String)) (k : String) : Option String :=
  (r.reverse.find? (fun p => p.1 == k)).map (fun p => p.2)

/-- The keys of an assoc list, in order. -/
def keysOf (r : List (String × String)) : List String :=
  r.map Prod.fst

/-- The numeric value of a decimal digit string. -/
def digitsVal (l : List Char) : Nat :=
  l.foldl (fun acc c => acc * 10 + (c.toNat - 48)) 0

def isAsciiDigitChar (c : Char) : Bool :=
  '0' ≤ c && c ≤ '9'

/-- A string is a JS array-index key: a canonical decimal (digits only, no
leading zero except "0" itself) below 2^32 - 1. -/
def isArrayIndexKey (s : String) : Bool :=
  match s.data with
  | [] => false
  | c :: rest =>
    (c :: rest).all isAsciiDigitChar &&
      (c != '0' || rest.isEmpty) &&
      digitsVal (c :: rest) < 4294967295

/-- `Object.entries` ordering: array-index keys first in ascending numeric
order, then the remaining keys in insertion order. -/
def jsObjectEntries (r : List (String × String)) : List (String × String) :=
  let idx := r.filter (fun p => isArrayIndexKey p.1)
  let rest := r.filter (fun p => !isArrayIndexKey p.1)
  (List.insertionSort (fun a b => digitsVal a.1.data ≤ digitsVal b.1.data) idx) ++ rest

/-- `Object.keys` (same ordering as `Object.entries`). -/
def jsObjectKeys (r : List (String × String)) : List String :=
  (jsObjectEntries r).map Prod.fst

/-- `Array.from(new Set(l))`: deduplicate keeping first occurrences. -/
def jsSetDedup (l : List String) : List String :=
  l.foldl (fun acc k => if acc.contains k then acc else acc ++ [k]) []

/-- The whitespace class used by JS `String.prototype.trim` and regex `\s`:
TAB, LF, VT, FF, CR, SP, NBSP, OGHAM SPACE MARK, the `Zs` range
U+2000–U+200A, LINE/PARAGRAPH SEPARATOR, NARROW NBSP, MMSP, IDEOGRAPHIC
SPACE and ZWNBSP (BOM). -/
def isJsSpace (c : Char) : Bool :=
  c == ' ' || c == '\t' || c == '\n' || c == '\r' || c == '\x0b' || c == '\x0c' ||
    c == '\u00A0' || c == '\u1680' || ('\u2000' ≤ c && c ≤ '\u200A') ||
    c == '\u2028' || c == '\u2029' || c == '\u202F' || c == '\u205F' ||
    c == '\u3000' || c == '\uFEFF'

/-- The JS regex LineTerminator class: what `.` refuses to match. -/
def isJsLineTerminator (c : Char) : Bool :=
  c == '\n' || c == '\r' || c == '\u2028' || c == '\u2029'

/-- `String.prototype.trim` on a character list. -/
def jsTrimList (l : List Char) : List Char :=
  ((l.dropWhile isJsSpace).reverse.dropWhile isJsSpace).reverse

/-- `String.prototype.trim`. -/
def jsTrim (s : String) : String :=
  ⟨jsTrimList s.data⟩

/-- `content.replace(/\r\n?/g, "\n")` on a character list. -/
def normNL : List Char → List Char
  | [] => []
  | '\r' :: '\n' :: rest => '\n' :: normNL rest
  | '\r' :: rest => '\n' :: normNL rest
  | c :: rest => c :: normNL rest

/-- `String.prototype.split` with a one-character separator. -/
def splitOnChar (sep : Char) : List Char → List (List Char)
  | [] => [[]]
  | c :: rest =>
    if c = sep then [] :: splitOnChar sep rest
    else
      match splitOnChar sep rest with
      | [] => [[c]]
      | l :: ls => (c :: l) :: ls

/-- `String.prototype.toLowerCase` (`Char.toLower` is the same ASCII
mapping). -/
def jsToLowerCase (l : List Char) : List Char :=
  l.map Char.toLower

def isAsciiAlpha (c : Char) : Bool :=
  ('A' ≤ c && c ≤ 'Z') || ('a' ≤ c && c ≤ 'z')

def isAsciiDigit (c : Char) : Bool :=
  '0' ≤ c && c ≤ '9'

/-- The regex class `\w`. -/
def isWordChar (c : Char) : Bool :=
  isAsciiAlpha c || isAsciiDigit c || c == '_'

/-- The dotenv line-key class `[\w.-]`. -/
def isDotenvKeyChar (c : Char) : Bool :=
  isWordChar c || c == '.' || c == '-'

/-- `/^[A-Za-z_][A-Za-z0-9_]*$/.test(value)`, with the falsy guard of the
source (`!value` rejects the empty string). -/
def isEnvVarName (value : String) : Bool :=
  match value.data with
  | [] => false
  | c :: rest =>
    (isAsciiAlpha c || c == '_') &&
      rest.all (fun d => isAsciiAlpha d || isAsciiDigit d || d == '_')

/-- After the key of a dotenv line, match the separator head of
`(?:\s*=\s*?|:\s+?)`: greedy `\s*` then `=`, or `:` followed by one mandatory
whitespace character.  The returned remainder is handed to `dotenvLazyValue`,
which plays the lazy `\s*?` (resp. the rest of `\s+?`) and the capture. -/
def dotenvSeparatorSplit (rest : List Char) : Option (List Char) :=
  match rest.dropWhile isJsSpace with
  | '=' :: tail => some tail
  | _ =>
    match rest with
    | ':' :: c :: tail => if isJsSpace c then some tail else none
    | _ => none

/-- The remainder after the value capture must satisfy `\s*(?:#.*)?$`:
whitespace, then optionally `#` followed by non-LineTerminator characters,
then the end of the line (`.` cannot cross a LineTerminator and `#` is not
whitespace, so only the maximal `\s*` run matters). -/
def acceptDotenvRest (s : List Char) : Bool :=
  let t := s.dropWhile isJsSpace
  t.isEmpty || (t.head? == some '#' && (t.drop 1).all (fun c => !isJsLineTerminator c))

/-- The greedy capture `(.*)?` before `\s*(?:#.*)?$`: every candidate is a
prefix of the maximal LineTerminator-free prefix, and the engine prefers the
longest one whose remainder is accepted. -/
def dotenvCaptureLen (r : List Char) : Nat → Option Nat
  | 0 => if acceptDotenvRest r then some 0 else none
  | i + 1 =>
    if acceptDotenvRest (r.drop (i + 1)) then some (i + 1) else dotenvCaptureLen r i

/-- The lazy `\s*?` (resp. the lazy tail of `\s+?`) between the separator and
the capture: try the capture here; if every capture fails, consume one more
whitespace character and retry.  On the empty remainder the capture is empty
and the end matches at once. -/
def dotenvLazyValue : List Char → Option (List Char)
  | [] => some []
  | c :: rest =>
    match dotenvCaptureLen (c :: rest)
        (((c :: rest).takeWhile (fun x => !isJsLineTerminator x)).length) with
    | some i => some ((c :: rest).take i)
    | none => if isJsSpace c then dotenvLazyValue rest else none

/-- Match `([\w.-]+)(?:\s*=\s*?|:\s+?)(.*)?\s*(?:#.*)?$` at the start of a
line: maximal key (key characters are never `=`, `:` or whitespace, so
backtracking into the key cannot help), then the separator, then the lazy
whitespace and the greedy capture. -/
def dotenvCoreMatch (cs : List Char) : Option (String × List Char) :=
  let key := cs.takeWhile isDotenvKeyChar
  if key.isEmpty then none
  else
    match dotenvSeparatorSplit (cs.dropWhile isDotenvKeyChar) with
    | some rest =>
      match dotenvLazyValue rest with
      | some value => some (⟨key⟩, value)
      | none => none
    | none => none

/-- The dotenv line regex
`/^\s*(?:export\s+)?([\w.-]+)(?:\s*=\s*?|:\s+?)(.*)?\s*(?:#.*)?$/`
applied to a line: key and the raw `(.*)` capture.  The greedy optional
`export\s+` prefix is tried first, falling back to a match without it. -/
def matchDotenvLine (line : List Char) : Option (String × List Char) :=
  let cs := line.dropWhile isJsSpace
  let withExport :=
    if "export".data.isPrefixOf cs then
      let after := cs.drop 6
      if after.head?.any isJsSpace then dotenvCoreMatch (after.dropWhile isJsSpace)
      else none
    else none
  match withExport with
  | some r => some r
  | none => dotenvCoreMatch cs

def singleQuoteChar : Char := Char.ofNat 39

/-- `value.replaceAll("\\n", "\n")` (left-to-right, non-overlapping). -/
def unescapeNewlines : List Char → List Char
  | '\\' :: 'n' :: rest => '\n' :: unescapeNewlines rest
  | c :: rest => c :: unescapeNewlines rest
  | [] => []

/-- `value.replaceAll("\\r", "\r")` (left-to-right, non-overlapping). -/
def unescapeCarriage : List Char → List Char
  | '\\' :: 'r' :: rest => '\r' :: unescapeCarriage rest
  | c :: rest => c :: unescapeCarriage rest
  | [] => []

/-- `normalizeValue` from the dotenv parser: strip a matching pair of
surrounding quotes; inside double quotes unescape `\n` then `\r`. -/
def normalizeValue (value : String) : String :=
  if value.length = 0 then ""
  else
    let first := value.data.head?
    let last := value.data.getLast?
    if (first == some '"' && last == some '"') ||
        (first == some singleQuoteChar && last == some singleQuoteChar) then
      let inner := (value.data.drop 1).dropLast
      if first == some '"' then ⟨unescapeCarriage (unescapeNewlines inner)⟩
      else ⟨inner⟩
    else value

/-- The `parseDotenv` loop body on one raw line: `none` for blank lines,
comment lines and non-matching lines, otherwise the key and the normalized
trimmed value. -/
def dotenvAcceptLine (raw : List Char) : Option (String × String) :=
  let trimmed := jsTrimList raw
  if trimmed.isEmpty then none
  else if trimmed.head? == some '#' then none
  else
    match matchDotenvLine trimmed with
    | none => none
    | some kc => some (kc.1, normalizeValue ⟨jsTrimList kc.2⟩)

/-- One entry per accepted line of a dotenv file, in line order (the body of
the `parseDotenv` loop before the record assignment). -/
def dotenvLineEntries (content : String) : List (String × String) :=
  (splitOnChar '\n' (normNL content.data)).filterMap dotenvAcceptLine

/-- `parseDotenv`: fold the accepted line entries into a JS record
(`result[key] = value`). -/
def parseDotenv (content : String) : List (String × String) :=
  (dotenvLineEntries content).foldl (fun acc kv => recordSet acc kv.1 kv.2) []

example : parseDotenv "A=1\nB=\"x\"\n" = [("A", "1"), ("B", "x")] := by decide

example : parseDotenv "# c\nexport A = 1 \nA=2\nB: v\n\n" = [("A", "2"), ("B", "v")] := by
  decide

/-! ## The Process Executor (`src/lib/exec/exec.ts`) -/

/-- `{ exitCode, stdout, stderr }`. -/
structure ExecResult where
  exitCode : Int
  stdout : String
  stderr : String
deriving Repr, DecidableEq

/-- `{ cwd, env?, stdin?, interactive? }` (an absent/undefined `interactive`
is falsy, collapsed to `false`). -/
structure ExecOptions where
  cwd : String
  env : Option (List (String × String)) := none
  stdin : Option String := none
  interactive : Bool := false
deriving Repr, DecidableEq

/-- `mergeEnv(base, overrides)`: copy the string-valued entries of the current
process environment (a `NodeJS.ProcessEnv`, where entries may be undefined),
then assign every override on top. -/
def mergeEnv (base : List (String × Option String)) (overrides : List (String × String)) :
    List (String × String) :=
  let result := base.foldl
    (fun acc p => match p.2 with | some v => recordSet acc p.1 v | none => acc) []
  overrides.foldl (fun acc p => recordSet acc p.1 p.2) result

/-- `options.env ? mergeEnv(process.env, options.env) : undefined` — the
environment handed to `spawn`; `none` means the child inherits the current
process environment unchanged. -/
def execEnv (processEnv : List (String × Option String)) (options : ExecOptions) :
    Option (List (String × String)) :=
  match options.env with
  | some e => some (mergeEnv processEnv e)
  | none => none

/-- Which of the child-process events fires first: the `error` event (spawn
failure) or the `close` event with an exit code (`null` when killed). -/
inductive SpawnOutcome where
  | errorEvent
  | closeEvent (code : Option Int)
deriving Repr, DecidableEq

/-- `waitForExit`: resolve with 1 on the `error` event, with `code ?? 1` on
`close`.  It only ever resolves — it never rejects. -/
def waitForExit : SpawnOutcome → Int
  | .errorEvent => 1
  | .closeEvent none => 1
  | .closeEvent (some c) => c

/-- The result of `exec(cmd, options)` given the oracle inputs (the spawn
outcome and the captured output streams).  The destructuring
`const [command, ...args] = cmd` makes `command` undefined for `[]` and the
`!command` guard also catches the empty string. -/
def exec (outcome : SpawnOutcome) (capturedStdout capturedStderr : String)
    (cmd : List String) (options : ExecOptions) : ExecResult :=
  match cmd with
  | [] => ⟨1, "", "No command provided"⟩
  | command :: _args =>
    if command = "" then ⟨1, "", "No command provided"⟩
    else if options.interactive then ⟨waitForExit outcome, "", ""⟩
    else ⟨waitForExit outcome, capturedStdout, capturedStderr⟩

/-! ## Runtime types (`src/lib/runtime/types.ts`)

Adapter methods run in `M σ := EStateM String σ`: thrown `Error`s are the
`String` exceptions, and `σ` is the world the injected executor acts on (a
call trace, or a provider store).  Errors preserve the state, so theorems can
observe that nothing was invoked before a throw. -/

abbrev M (σ : Type) := EStateM String σ

def liftE {σ α : Type} : Except String α → M σ α
  | .ok a => pure a
  | .error e => throw e

/-- `{ projectDir, exec }`. -/
structure AdapterContext (σ : Type) where
  projectDir : String
  exec : List String → ExecOptions → M σ ExecResult

/-- The Adapter Contract (`init`/`listEnvironments` are omitted: no claim in
this development touches them).  `listEnvVars` is the optional listing
capability. -/
structure Adapter (σ : Type) where
  name : String
  pull : AdapterContext σ → String → String → M σ Unit
  add : AdapterContext σ → String → String → String → Bool → M σ Unit
  upsert : AdapterContext σ → String → String → String → Bool → M σ Unit
  update : AdapterContext σ → String → String → String → Bool → M σ Unit
  delete : AdapterContext σ → String → String → M σ Unit
  listEnvVars : Option (AdapterContext σ → String → M σ (List String)) := none

/-- `{ envFile, remote? }`; `remote := none` collapses null/undefined. -/
structure BetterEnvEnvironmentConfig where
  envFile : String
  remote : Option String := none
deriving Repr, DecidableEq

/-- `{ adapter, environments?, gitignore? }`; `gitignoreEnsure` models
`gitignore?.ensure` (none when the object or the field is absent). -/
structure BetterEnvConfig (σ : Type) where
  adapter : Adapter σ
  environments : Option (List (String × BetterEnvEnvironmentConfig)) := none
  gitignoreEnsure : Option Bool := none

inductive BetterEnvLoadMode where
  | add
  | update
  | upsert
  | replace
deriving Repr, DecidableEq

inductive MutateMode where
  | add
  | upsert
  | update
deriving Repr, DecidableEq

/-! ## Environment resolution and runtime orchestration
(`src/lib/runtime/runtime.ts`) -/

/-- `resolveEnvironmentName`: `if (!requested) return "development"` — the
JS falsy check also sends the empty string to the default. -/
def resolveEnvironmentName {σ : Type} (_config : BetterEnvConfig σ)
    (requested : Option String) : String :=
  match requested with
  | none => "development"
  | some s => if s = "" then "development" else s

/-- `getEnvironmentConfig`: dictionary lookup in `config.environments ?? {}`;
an unknown name throws, listing the known names when any exist. -/
def getEnvironmentConfig {σ : Type} (config : BetterEnvConfig σ) (name : String) :
    Except String BetterEnvEnvironmentConfig :=
  let envs := config.environments.getD []
  match envs.find? (fun p => p.1 == name) with
  | some p => .ok p.2
  | none =>
    let known := envs.map Prod.fst
    let hint :=
      if known.length > 0 then "Known environments: " ++ String.intercalate ", " known
      else ""
    .error (jsTrim ("Unknown environment \"" ++ name ++ "\". " ++ hint))

/-- The `if (!envConfig.remote)` guard: null, undefined and the empty string
are all falsy, i.e. local-only. -/
def remoteOf (c : BetterEnvEnvironmentConfig) : Option String :=
  match c.remote with
  | some r => if r = "" then none else some r
  | none => none

def localOnlyError (environment : String) : String :=
  "Environment \"" ++ environment ++ "\" is local-only (no remote mapping)."

/-- `path.isAbsolute` (posix): the path starts with a slash. -/
def pathIsAbsolute (p : String) : Bool := p.data.head? == some '/' 

/-- `path.join(projectDir, filePath)` (no normalization; none of the claims
depends on path canonicalization). -/
def pathJoin (a b : String) : String := a ++ "/" ++ b

/-- `pullEnv`: resolve the name; local-only environments return immediately;
otherwise delegate to the adapter's `pull` and then run the gitignore
side effect (an external collaborator passed as `ensureGitIgnoredEff`)
unless disabled. -/
def pullEnv {σ : Type} (ensureGitIgnoredEff : String → List String → M σ Unit)
    (ctx : AdapterContext σ) (config : BetterEnvConfig σ)
    (environmentName : Option String) : M σ (String × String) := do
  let environment := resolveEnvironmentName config environmentName
  let envConfig ← liftE (getEnvironmentConfig config environment)
  match remoteOf envConfig with
  | none => pure (environment, envConfig.envFile)
  | some remote => do
    config.adapter.pull ctx remote envConfig.envFile
    if config.gitignoreEnsure.getD true then
      ensureGitIgnoredEff ctx.projectDir [envConfig.envFile]
    pure (environment, envConfig.envFile)

/-- `addEnvVar`: resolve, reject local-only environments, then dispatch on
the mode to the matching adapter method. -/
def addEnvVar {σ : Type} (ctx : AdapterContext σ) (config : BetterEnvConfig σ)
    (mode : MutateMode) (environmentName : Option String)
    (key value : String) (sensitive : Bool) : M σ Unit := do
  let environment := resolveEnvironmentName config environmentName
  let envConfig ← liftE (getEnvironmentConfig config environment)
  match remoteOf envConfig with
  | none => throw (localOnlyError environment)
  | some remote =>
    match mode with
    | .add => config.adapter.add ctx remote key value sensitive
    | .upsert => config.adapter.upsert ctx remote key value sensitive
    | .update => config.adapter.update ctx remote key value sensitive

/-- `deleteEnvVar`: resolve, reject local-only environments, delegate. -/
def deleteEnvVar {σ : Type} (ctx : AdapterContext σ) (config : BetterEnvConfig σ)
    (environmentName : Option String) (key : String) : M σ Unit := do
  let environment := resolveEnvironmentName config environmentName
  let envConfig ← liftE (getEnvironmentConfig config environment)
  match remoteOf envConfig with
  | none => throw (localOnlyError environment)
  | some remote => config.adapter.delete ctx remote key

/-- `path.isAbsolute(filePath) ? filePath : path.join(projectDir, filePath)`. -/
def absoluteLoadPath (projectDir filePath : String) : String :=
  if pathIsAbsolute filePath then filePath else pathJoin projectDir filePath

/-- The body of `loadEnvFileToRemote` once a non-null remote mapping is in
hand: read and parse the dotenv file (the filesystem is the `readFile`
oracle), in replace mode list the remote keys and delete the stale ones
first, then apply the per-entry mutation for every parsed entry in
`Object.entries` order. -/
def loadEnvRemoteBody {σ : Type} (readFile : String → String)
    (ctx : AdapterContext σ) (config : BetterEnvConfig σ) (filePath : String)
    (mode : BetterEnvLoadMode) (sensitive : Bool) (remote : String) : M σ Unit := do
  let absolute := absoluteLoadPath ctx.projectDir filePath
  let content := readFile absolute
  let entries := parseDotenv content
  if mode = BetterEnvLoadMode.replace then
    match config.adapter.listEnvVars with
    | none =>
      throw ("Adapter \"" ++ config.adapter.name ++ "\" does not support --replace yet.")
    | some list => do
      let existingKeys ← list ctx remote
      let nextKeys := jsObjectKeys entries
      let toDelete := existingKeys.filter (fun k => !nextKeys.contains k)
      toDelete.forM (fun key => config.adapter.delete ctx remote key)
  (jsObjectEntries entries).forM (fun kv =>
    match mode with
    | .add => config.adapter.add ctx remote kv.1 kv.2 sensitive
    | .update => config.adapter.update ctx remote kv.1 kv.2 sensitive
    | _ => config.adapter.upsert ctx remote kv.1 kv.2 sensitive)

def loadEnvFileToRemote {σ : Type} (readFile : String → String)
    (ctx : AdapterContext σ) (config : BetterEnvConfig σ)
    (environmentName : Option String) (filePath : String)
    (mode : BetterEnvLoadMode) (sensitive : Bool) : M σ Unit := do
  let environment := resolveEnvironmentName config environmentName
  let envConfig ← liftE (getEnvironmentConfig config environment)
  match remoteOf envConfig with
  | none => throw (localOnlyError environment)
  | some remote => loadEnvRemoteBody readFile ctx config filePath mode sensitive remote

/-! ## Provider output parsers -/

/-- Split on a character class (every matching character is a separator). -/
def splitOnPred (p : Char → Bool) : List Char → List (List Char)
  | [] => [[]]
  | c :: rest =>
    if p c then [] :: splitOnPred p rest
    else
      match splitOnPred p rest with
      | [] => [[c]]
      | l :: ls => (c :: l) :: ls

/-- `line.split(/\s+/)` for the trimmed lines these parsers feed it (no
leading separator, so no leading empty token arises). -/
def jsSplitWs (l : List Char) : List (List Char) :=
  (splitOnPred isJsSpace l).filter (fun w => !w.isEmpty)

/-- `line.indexOf(sep)` followed by the two slices around the first hit;
`none` when the separator is absent. -/
def breakAtFirst (sep : Char) (l : List Char) : Option (List Char × List Char) :=
  if l.contains sep then
    some (l.takeWhile (fun c => c != sep), (l.dropWhile (fun c => c != sep)).drop 1)
  else none

/-- One iteration of the `parseVercelEnvLs` loop. -/
def parseVercelEnvLsLine (acc : List String) (raw : List Char) : List String :=
  let trimmed := jsTrimList raw
  if trimmed.isEmpty then acc
  else
    let lower := jsToLowerCase trimmed
    if "vercel".data.isPrefixOf lower then acc
    else if "environment variables".data.isPrefixOf lower then acc
    else if "name ".data.isPrefixOf lower then acc
    else if "key ".data.isPrefixOf lower then acc
    else
      match jsSplitWs trimmed with
      | [] => acc
      | first :: _ => if isEnvVarName ⟨first⟩ then acc ++ [(⟨first⟩ : String)] else acc

/-- `parseVercelEnvLs`: skip blank and banner lines, take the first
whitespace-separated token of each remaining line when it is a valid
variable name, and deduplicate. -/
def parseVercelEnvLs (stdout : String) : List String :=
  jsSetDedup ((splitOnChar '\n' (normNL stdout.data)).foldl parseVercelEnvLsLine [])

/-- One iteration of the `parseConvexEnvList` loop. -/
def parseConvexEnvLine (vars : List (String × String)) (raw : List Char) :
    List (String × String) :=
  let line := jsTrimList raw
  if line.isEmpty then vars
  else if line.head? == some '#' then vars
  else
    let lower := jsToLowerCase line
    if "name ".data.isPrefixOf lower then vars
    else if "environment variable".data.isPrefixOf lower then vars
    else if "convex".data.isPrefixOf lower then vars
    else
      match breakAtFirst '=' line with
      | some pp =>
        let key := (⟨jsTrimList pp.1⟩ : String)
        let value := (⟨jsTrimList pp.2⟩ : String)
        if isEnvVarName key then recordSet vars key value else vars
      | none =>
        match jsSplitWs line with
        | [] => vars
        | first :: restParts =>
          if !isEnvVarName ⟨first⟩ || (first :: restParts).length < 2 then vars
          else recordSet vars ⟨first⟩ ⟨jsTrimList (List.intercalate [' '] restParts)⟩

/-- `parseConvexEnvList`: skip blank, comment and banner lines; `KEY=value`
lines win over `KEY value` lines; the whitespace form needs at least two
tokens. -/
def parseConvexEnvList (stdout : String) : List (String × String) :=
  (splitOnChar '\n' (normNL stdout.data)).foldl parseConvexEnvLine []

/-- One iteration of the `parseRailwayPlainVariables` loop. -/
def parseRailwayPlainLine (out : List (String × String)) (raw : List Char) :
    List (String × String) :=
  let line := jsTrimList raw
  if line.isEmpty then out
  else if line.head? == some '#' then out
  else
    match breakAtFirst '=' line with
    | some pp =>
      let key := (⟨jsTrimList pp.1⟩ : String)
      let value := (⟨jsTrimList pp.2⟩ : String)
      if isEnvVarName key then recordSet out key value else out
    | none =>
      match jsSplitWs line with
      | [] => out
      | first :: restParts =>
        if isEnvVarName ⟨first⟩ then
          recordSet out ⟨first⟩ ⟨jsTrimList (List.intercalate [' '] restParts)⟩
        else out

/-- `parseRailwayPlainVariables`: like the convex parser but with no banner
filters and no two-token requirement (a bare `KEY` line yields an empty
value). -/
def parseRailwayPlainVariables (stdout : String) : List (String × String) :=
  (splitOnChar '\n' (normNL stdout.data)).foldl parseRailwayPlainLine []

/-- JSON values as produced by the host `JSON.parse` builtin. -/
inductive Jsonish where
  | null
  | bool (b : Bool)
  | num (n : Int)
  | str (s : String)
  | arr (items : List Jsonish)
  | obj (fields : List (String × Jsonish))

/-- `readString(value, keys)`: the first listed property holding a string. -/
def readStringField (fields : List (String × Jsonish)) : List String → Option String
  | [] => none
  | k :: rest =>
    match (fields.find? (fun p => p.1 == k)).map (fun p => p.2) with
    | some (Jsonish.str s) => some s
    | _ => readStringField fields rest

/-- `tryParseJson`: trim, attempt `JSON.parse` (the host builtin, passed in
as the `jsonParse` oracle; `none` = parse failure), and on failure re-attempt
on the slice between the first `[` and the last `]`. -/
def tryParseJson (jsonParse : String → Option Jsonish) (value : String) : Option Jsonish :=
  let trimmed := jsTrim value
  if trimmed.length = 0 then none
  else
    match jsonParse trimmed with
    | some v => some v
    | none =>
      let cs := trimmed.data
      if cs.contains '[' && cs.contains ']' then
        let start := cs.indexOf '['
        let stop := cs.length - 1 - cs.reverse.indexOf ']'
        if start > stop then none
        else jsonParse ⟨(cs.take (stop + 1)).drop start⟩
      else none

/-- `tryParseFlySecretsList`: a JSON array of records whose
`name`/`Name`/`key`/`Key` string field is a valid variable name, deduplicated
through a `Set`; `none` when the payload is not an array. -/
def tryParseFlySecretsList (jsonParse : String → Option Jsonish) (stdout : String) :
    Option (List String) :=
  match tryParseJson jsonParse stdout with
  | some (.arr items) =>
    some (jsSetDedup (items.filterMap (fun item =>
      match item with
      | .obj fields =>
        match readStringField fields ["name", "Name", "key", "Key"] with
        | some name => if isEnvVarName name then some name else none
        | none => none
      | _ => none)))
  | _ => none

/-- `tryParseWranglerSecretList`: a JSON array of records with a string
`name` field that is a valid variable name, deduplicated. -/
def tryParseWranglerSecretList (jsonParse : String → Option Jsonish) (stdout : String) :
    Option (List String) :=
  match tryParseJson jsonParse stdout with
  | some (.arr items) =>
    some (jsSetDedup (items.filterMap (fun item =>
      match item with
      | .obj fields =>
        match (fields.find? (fun p => p.1 == "name")).map (fun p => p.2) with
        | some (Jsonish.str name) => if isEnvVarName name then some name else none
        | _ => none
      | _ => none)))
  | _ => none

/-! ## The Fly adapter (`src/lib/adapters/fly.ts`)

`resolveAppName` reads `process.env.BETTER_ENV_FLY_APP` and `fly.toml`; those
ambient inputs are the `envFlyApp` and `flyTomlApp` parameters (`flyTomlApp`
already stands for the result of the existence check, the regex match and the
trim on `fly.toml`).  The host `JSON.parse` is the `jsonParse` oracle. -/

structure FlyAdapterOptions where
  flyBin : Option String := none
  app : Option String := none
  config : Option String := none

def resolveAppName (explicitApp envFlyApp flyTomlApp : Option String) : Option String :=
  if (explicitApp.getD "").length > 0 then explicitApp
  else if (envFlyApp.getD "").length > 0 then envFlyApp
  else flyTomlApp

def flyRun {σ : Type} (options : FlyAdapterOptions) (envFlyApp flyTomlApp : Option String)
    (ctx : AdapterContext σ) (args : List String) (includeApp : Bool := true) :
    M σ ExecResult :=
  let flyBin := options.flyBin.getD "fly"
  let cmd := [flyBin] ++ args
  let cmd :=
    match options.config with
    | some cfg => cmd ++ ["--config", cfg]
    | none => cmd
  let cmd :=
    if includeApp then
      match resolveAppName options.app envFlyApp flyTomlApp with
      | some app => if app = "" then cmd else cmd ++ ["--app", app]
      | none => cmd
    else cmd
  ctx.exec cmd ⟨ctx.projectDir, none, none, false⟩

def flyListKeys {σ : Type} (jsonParse : String → Option Jsonish)
    (options : FlyAdapterOptions) (envFlyApp flyTomlApp : Option String)
    (ctx : AdapterContext σ) : M σ (List String) := do
  let res ← flyRun options envFlyApp flyTomlApp ctx ["secrets", "list", "--json"]
  if res.exitCode != 0 then
    throw (jsTrim ("Failed to list env vars from Fly.\n" ++ res.stderr))
  else
    match tryParseFlySecretsList jsonParse res.stdout with
    | none => throw "Failed to parse Fly secrets list output."
    | some parsed => pure parsed

def flyUpsert {σ : Type} (_jsonParse : String → Option Jsonish)
    (options : FlyAdapterOptions) (envFlyApp flyTomlApp : Option String)
    (ctx : AdapterContext σ) (_environment key value : String) (_sensitive : Bool) :
    M σ Unit := do
  let res ← flyRun options envFlyApp flyTomlApp ctx
    ["secrets", "set", key ++ "=" ++ value, "--stage"]
  if res.exitCode != 0 then
    throw (jsTrim ("Failed to upsert env var " ++ key ++ ".\n" ++ res.stderr))
  else pure ()

def flyAdapter {σ : Type} (jsonParse : String → Option Jsonish)
    (envFlyApp flyTomlApp : Option String) (options : FlyAdapterOptions) : Adapter σ where
  name := "fly"
  pull := fun _ctx environment _envFile =>
    throw (String.intercalate "\n"
      ["Fly adapter cannot pull secret values for \"" ++ environment ++ "\".",
        "Fly does not expose secret values after upload.",
        "Use local dotenv files as source of truth and push with `better-env load`."])
  add := fun ctx _environment key value _sensitive => do
    let keyExists ← do
      let keys ← flyListKeys jsonParse options envFlyApp flyTomlApp ctx
      pure (keys.contains key)
    if keyExists then
      throw ("Env var " ++ key ++
        " already exists. Use `better-env update` or `better-env upsert`.")
    else
      flyUpsert jsonParse options envFlyApp flyTomlApp ctx "production" key value false
  upsert := flyUpsert jsonParse options envFlyApp flyTomlApp
  update := fun ctx _environment key value _sensitive => do
    let keyExists ← do
      let keys ← flyListKeys jsonParse options envFlyApp flyTomlApp ctx
      pure (keys.contains key)
    if !keyExists then
      throw ("Env var " ++ key ++
        " does not exist. Use `better-env add` or `better-env upsert`.")
    else
      flyUpsert jsonParse options envFlyApp flyTomlApp ctx "production" key value false
  delete := fun ctx _environment key => do
    let res ← flyRun options envFlyApp flyTomlApp ctx ["secrets", "unset", key, "--stage"]
    if res.exitCode != 0 then
      throw (jsTrim ("Failed to delete env var " ++ key ++ ".\n" ++ res.stderr))
    else pure ()
  listEnvVars := some (fun ctx _environment =>
    flyListKeys jsonParse options envFlyApp flyTomlApp ctx)

/-! ## The Cloudflare adapter (`src/lib/adapters/cloudflare.ts`) -/

structure CloudflareAdapterOptions where
  wranglerBin : Option String := none
  config : Option String := none

def cloudflareWithGlobals (options : CloudflareAdapterOptions) (args : List String) :
    List String :=
  let out := [options.wranglerBin.getD "wrangler"] ++ args
  match options.config with
  | some cfg => out ++ ["--config", cfg]
  | none => out

def cloudflareRun {σ : Type} (options : CloudflareAdapterOptions)
    (ctx : AdapterContext σ) (args : List String) (stdin : Option String := none) :
    M σ ExecResult :=
  ctx.exec (cloudflareWithGlobals options args) ⟨ctx.projectDir, none, stdin, false⟩

/-- `toEnvironmentArgs` (cloudflare): production is the unnamed default. -/
def toEnvironmentArgs (environment : String) : List String :=
  if environment = "production" then [] else ["--env", environment]

def cloudflareListKeys {σ : Type} (jsonParse : String → Option Jsonish)
    (options : CloudflareAdapterOptions) (ctx : AdapterContext σ) (environment : String) :
    M σ (List String) := do
  let args := ["secret", "list"] ++ toEnvironmentArgs environment
  let res1 ← cloudflareRun options ctx (args ++ ["--format", "json"])
  let res2 ← cloudflareRun options ctx (args ++ ["--json"])
  let k1 := if res1.exitCode == 0 then tryParseWranglerSecretList jsonParse res1.stdout else none
  match k1 with
  | some keys => pure keys
  | none =>
    let k2 := if res2.exitCode == 0 then tryParseWranglerSecretList jsonParse res2.stdout else none
    match k2 with
    | some keys => pure keys
    | none =>
      throw (String.intercalate "\n"
        ((["Failed to list env vars from Cloudflare (" ++ environment ++ ").",
            res1.stderr, res2.stderr]).filter (fun line => (jsTrim line).length > 0)))

def cloudflareUpsert {σ : Type} (_jsonParse : String → Option Jsonish)
    (options : CloudflareAdapterOptions) (ctx : AdapterContext σ)
    (environment key value : String) (_sensitive : Bool) : M σ Unit := do
  let res ← cloudflareRun options ctx
    (["secret", "put", key] ++ toEnvironmentArgs environment) (some (value ++ "\n"))
  if res.exitCode != 0 then
    throw (jsTrim ("Failed to upsert env var " ++ key ++ " (" ++ environment ++ ").\n" ++
      res.stderr))
  else pure ()

def cloudflareAdapter {σ : Type} (jsonParse : String → Option Jsonish)
    (options : CloudflareAdapterOptions) : Adapter σ where
  name := "cloudflare"
  pull := fun _ctx environment _envFile =>
    throw (String.intercalate "\n"
      ["Cloudflare adapter cannot pull secret values for \"" ++ environment ++ "\".",
        "Wrangler does not expose secret values after upload.",
        "Use local dotenv files as source of truth and push with `better-env load`."])
  add := fun ctx environment key value _sensitive => do
    let keys ← cloudflareListKeys jsonParse options ctx environment
    if keys.contains key then
      throw ("Env var " ++ key ++ " already exists in " ++ environment ++
        ". Use `better-env update` or `better-env upsert`.")
    else cloudflareUpsert jsonParse options ctx environment key value false
  upsert := cloudflareUpsert jsonParse options
  update := fun ctx environment key value _sensitive => do
    let keys ← cloudflareListKeys jsonParse options ctx environment
    if !keys.contains key then
      throw ("Env var " ++ key ++ " does not exist in " ++ environment ++
        ". Use `better-env add` or `better-env upsert`.")
    else cloudflareUpsert jsonParse options ctx environment key value false
  delete := fun ctx environment key => do
    let res ← cloudflareRun options ctx
      (["secret", "delete", key] ++ toEnvironmentArgs environment)
    if res.exitCode != 0 then
      throw (jsTrim ("Failed to delete env var " ++ key ++ " (" ++ environment ++ ").\n" ++
        res.stderr))
    else pure ()
  listEnvVars := some (fun ctx environment =>
    cloudflareListKeys jsonParse options ctx environment)

/-! ## The Convex adapter (`src/lib/adapters/convex.ts`)

`pull` writes the local env file; the filesystem write is the `writeFile`
effect and the host `localeCompare` collation is the `cmp` oracle. -/

structure ConvexAdapterOptions where
  convexBin : Option String := none

/-- `toEnvironmentArgs` (convex): development is the unnamed default,
production is `--prod`, anything else throws. -/
def convexToEnvironmentArgs (environment : Option String) : Except String (List String) :=
  match environment with
  | none => .ok []
  | some e =>
    if e = "" then .ok []
    else if e = "development" then .ok []
    else if e = "production" then .ok ["--prod"]
    else
      .error ("Unsupported Convex environment \"" ++ e ++
        "\". Configure a remote mapping to \"development\" or \"production\".")

def convexRun {σ : Type} (options : ConvexAdapterOptions) (ctx : AdapterContext σ)
    (args : List String) (environment : Option String) : M σ ExecResult := do
  let envArgs ← liftE (convexToEnvironmentArgs environment)
  ctx.exec ([options.convexBin.getD "convex"] ++ args ++ envArgs)
    ⟨ctx.projectDir, none, none, false⟩

def convexListVars {σ : Type} (options : ConvexAdapterOptions) (ctx : AdapterContext σ)
    (environment : String) : M σ (List (String × String)) := do
  let res ← convexRun options ctx ["env", "list"] (some environment)
  if res.exitCode != 0 then
    throw (jsTrim ("Failed to list env vars from Convex (" ++ environment ++ ").\n" ++
      res.stderr))
  else pure (parseConvexEnvList res.stdout)

/-- The dotenv content written by the convex and railway `pull` methods:
`Object.entries(vars).sort(localeCompare).map(kv => "k=v").join("\n")` plus a
trailing newline when non-empty.  `cmp` is the host `localeCompare`; the sort
is stable. -/
def envFileContent (cmp : String → String → Int) (vars : List (String × String)) : String :=
  let sorted := List.insertionSort (fun a b => cmp a.1 b.1 ≤ 0) (jsObjectEntries vars)
  let content := String.intercalate "\n" (sorted.map (fun kv => kv.1 ++ "=" ++ kv.2))
  if content.length > 0 then content ++ "\n" else ""

def convexUpsert {σ : Type} (options : ConvexAdapterOptions) (ctx : AdapterContext σ)
    (environment key value : String) (_sensitive : Bool) : M σ Unit := do
  let res ← convexRun options ctx ["env", "set", key, value] (some environment)
  if res.exitCode != 0 then
    throw (jsTrim ("Failed to upsert env var " ++ key ++ " (" ++ environment ++ ").\n" ++
      res.stderr))
  else pure ()

def convexAdapter {σ : Type} (cmp : String → String → Int)
    (writeFile : String → String → M σ Unit) (options : ConvexAdapterOptions) :
    Adapter σ where
  name := "convex"
  pull := fun ctx environment envFile => do
    let vars ← convexListVars options ctx environment
    writeFile (pathJoin ctx.projectDir envFile) (envFileContent cmp vars)
  add := fun ctx environment key value _sensitive => do
    let vars ← convexListVars options ctx environment
    if recordHasOwn vars key then
      throw ("Env var " ++ key ++ " already exists in " ++ environment ++
        ". Use `better-env update` or `better-env upsert`.")
    else convexUpsert options ctx environment key value false
  upsert := convexUpsert options
  update := fun ctx environment key value _sensitive => do
    let vars ← convexListVars options ctx environment
    if !recordHasOwn vars key then
      throw ("Env var " ++ key ++ " does not exist in " ++ environment ++
        ". Use `better-env add` or `better-env upsert`.")
    else convexUpsert options ctx environment key value false
  delete := fun ctx environment key => do
    let res ← convexRun options ctx ["env", "remove", key] (some environment)
    if res.exitCode != 0 then
      throw (jsTrim ("Failed to delete env var " ++ key ++ " (" ++ environment ++ ").\n" ++
        res.stderr))
    else pure ()
  listEnvVars := some (fun ctx environment => do
    let vars ← convexListVars options ctx environment
    pure (jsObjectKeys vars))

/-! ## The Vercel adapter (`src/lib/adapters/vercel.ts`)

`add` issues `vercel env add` directly (no existence pre-check): the CLI
itself rejects duplicates; `upsert` passes `--force`. -/

structure VercelAdapterOptions where
  vercelBin : Option String := none
  scope : Option String := none
  token : Option String := none

def vercelWithGlobals (options : VercelAdapterOptions) (args : List String) : List String :=
  let out := [options.vercelBin.getD "vercel"] ++ args ++ ["--no-color"]
  let out :=
    match options.scope with
    | some s => out ++ ["--scope", s]
    | none => out
  match options.token with
  | some t => out ++ ["--token", t]
  | none => out

def vercelRun {σ : Type} (options : VercelAdapterOptions) (ctx : AdapterContext σ)
    (args : List String) (stdin : Option String := none) (interactive : Bool := false) :
    M σ ExecResult :=
  ctx.exec (vercelWithGlobals options args) ⟨ctx.projectDir, none, stdin, interactive⟩

def vercelEnvVarExists {σ : Type} (options : VercelAdapterOptions) (ctx : AdapterContext σ)
    (environment key : String) : M σ Bool := do
  let res ← vercelRun options ctx ["env", "ls", environment]
  if res.exitCode != 0 then
    throw (jsTrim ("Failed to list env vars.\n" ++ res.stderr))
  else pure ((parseVercelEnvLs res.stdout).contains key)

def vercelUpsert {σ : Type} (options : VercelAdapterOptions) (ctx : AdapterContext σ)
    (environment key value : String) (sensitive : Bool) : M σ Unit := do
  let res ← vercelRun options ctx
    (["env", "add", key, environment, "--force"] ++ (if sensitive then ["--sensitive"] else []))
    (some (value ++ "\n"))
  if res.exitCode != 0 then
    throw (jsTrim ("Failed to upsert env var " ++ key ++ " (" ++ environment ++ ").\n" ++
      res.stderr))
  else pure ()

def vercelAdapter {σ : Type} (options : VercelAdapterOptions) : Adapter σ where
  name := "vercel"
  pull := fun ctx environment envFile => do
    let res ← vercelRun options ctx
      ["env", "pull", envFile, "--environment", environment, "--yes"]
    if res.exitCode != 0 then
      throw (jsTrim ("Failed to pull env vars from Vercel (" ++ environment ++ ").\n" ++
        res.stderr))
    else pure ()
  add := fun ctx environment key value sensitive => do
    let res ← vercelRun options ctx
      (["env", "add", key, environment] ++ (if sensitive then ["--sensitive"] else []))
      (some (value ++ "\n"))
    if res.exitCode != 0 then
      throw (jsTrim ("Failed to add env var " ++ key ++ " (" ++ environment ++ ").\n" ++
        res.stderr))
    else pure ()
  upsert := vercelUpsert options
  update := fun ctx environment key value sensitive => do
    let keyExists ← vercelEnvVarExists options ctx environment key
    if !keyExists then
      throw ("Env var " ++ key ++ " does not exist in " ++ environment ++
        ". Use `better-env add` or `better-env upsert`.")
    else vercelUpsert options ctx environment key value sensitive
  delete := fun ctx environment key => do
    let res ← vercelRun options ctx ["env", "rm", key, environment, "--yes"]
    if res.exitCode != 0 then
      throw (jsTrim ("Failed to delete env var " ++ key ++ " (" ++ environment ++ ").\n" ++
        res.stderr))
    else pure ()
  listEnvVars := some (fun ctx environment => do
    let res ← vercelRun options ctx ["env", "ls", environment]
    if res.exitCode != 0 then
      throw (jsTrim ("Failed to list env vars.\n" ++ res.stderr))
    else pure (parseVercelEnvLs res.stdout))

/-! ## Test doubles: recording adapter and faithful provider models -/

/-- Adapter-level operations, for observing exactly what the orchestration
layer asks an adapter to do. -/
inductive AdapterOp where
  | pullOp (environment envFile : String)
  | addOp (environment key value : String) (sensitive : Bool)
  | upsertOp (environment key value : String) (sensitive : Bool)
  | updateOp (environment key value : String) (sensitive : Bool)
  | deleteOp (environment key : String)
  | listOp (environment : String)
deriving Repr, DecidableEq

def recordOp (op : AdapterOp) : M (List AdapterOp) Unit :=
  modify (fun t => t ++ [op])

/-- A recording adapter: every method logs its call; the listing capability
reports `existingKeys`. -/
def recordingAdapter (existingKeys : List String) : Adapter (List AdapterOp) where
  name := "recording"
  pull := fun _ctx environment envFile => recordOp (.pullOp environment envFile)
  add := fun _ctx environment key value sensitive =>
    recordOp (.addOp environment key value sensitive)
  upsert := fun _ctx environment key value sensitive =>
    recordOp (.upsertOp environment key value sensitive)
  update := fun _ctx environment key value sensitive =>
    recordOp (.updateOp environment key value sensitive)
  delete := fun _ctx environment key => recordOp (.deleteOp environment key)
  listEnvVars := some (fun _ctx environment => do
    recordOp (.listOp environment)
    pure existingKeys)

/-- The recording adapter without the optional listing capability. -/
def recordingAdapterNoList : Adapter (List AdapterOp) :=
  { recordingAdapter [] with listEnvVars := none }

/-- A context whose executor is never expected to run. -/
def opCtx (projectDir : String) : AdapterContext (List AdapterOp) where
  projectDir := projectDir
  exec := fun _cmd _opts => pure ⟨1, "", "no executor"⟩

/-- Interpret an adapter-operation trace against a remote store, with the
provider taking upserts and deletes at face value. -/
def applyOps (ops : List AdapterOp) (store : List (String × String)) :
    List (String × String) :=
  ops.foldl (fun s op =>
    match op with
    | .upsertOp _ k v _ => recordSet s k v
    | .addOp _ k v _ => recordSet s k v
    | .updateOp _ k v _ => recordSet s k v
    | .deleteOp _ k => recordDelete s k
    | _ => s) store

/-- Listing output of a faithful convex provider holding store `s`:
one `KEY=value` line per variable. -/
def serializeConvexStore (s : List (String × String)) : String :=
  String.intercalate "\n" (s.map (fun kv => kv.1 ++ "=" ++ kv.2))

/-- A faithful convex provider: the store is the ground truth, `env list`
reports exactly it, `env set`/`env remove` succeed and update it, anything
else fails. -/
def convexStoreExec (cmd : List String) (_opts : ExecOptions) :
    M (List (String × String)) ExecResult := do
  let s ← get
  match cmd with
  | ["convex", "env", "list"] => pure ⟨0, serializeConvexStore s, ""⟩
  | ["convex", "env", "set", k, v] => do
    set (recordSet s k v)
    pure ⟨0, "", ""⟩
  | ["convex", "env", "remove", k] => do
    set (recordDelete s k)
    pure ⟨0, "", ""⟩
  | _ => pure ⟨1, "", "unexpected command"⟩

def convexCtx (projectDir : String) : AdapterContext (List (String × String)) :=
  ⟨projectDir, convexStoreExec⟩

/-- The secrets-list JSON a faithful Fly provider prints for secret names
`names`. -/
def flySerializeSecrets (names : List String) : String :=
  "[" ++
    String.intercalate ","
      (names.map (fun n => "\x7b\"name\":\"" ++ n ++ "\"\x7d")) ++ "]"

/-- The `JSON.parse` result for `flySerializeSecrets names`. -/
def flyJsonOfNames (names : List String) : Jsonish :=
  .arr (names.map (fun n => .obj [("name", .str n)]))

/-- `fly secrets set K=V --stage` on a store of secret names. -/
def flyStoreSetKey (s : List String) (kv : String) : List String :=
  let k := (⟨kv.data.takeWhile (fun c => c != '=')⟩ : String)
  if s.contains k then s else s ++ [k]

/-- A faithful Fly provider for the app `app1`: the secret-name store is the
ground truth; listing reports it as JSON; set/unset succeed and update it. -/
def flyStoreExec (cmd : List String) (_opts : ExecOptions) :
    M (List String) ExecResult := do
  let s ← get
  match cmd with
  | ["fly", "secrets", "list", "--json", "--app", "app1"] =>
    pure ⟨0, flySerializeSecrets s, ""⟩
  | ["fly", "secrets", "set", kv, "--stage", "--app", "app1"] => do
    set (flyStoreSetKey s kv)
    pure ⟨0, "", ""⟩
  | ["fly", "secrets", "unset", k, "--stage", "--app", "app1"] => do
    set (s.filter (fun n => n != k))
    pure ⟨0, "", ""⟩
  | _ => pure ⟨1, "", "unexpected command"⟩

def flyCtx (projectDir : String) : AdapterContext (List String) :=
  ⟨projectDir, flyStoreExec⟩

/-- A faithful Vercel provider: the variable-name store is the ground truth;
`env ls` reports one name per line, a plain `env add` fails on an existing
key (the CLI rejects duplicates without `--force`) and `--force` always
succeeds. -/
def vercelStoreExec (cmd : List String) (_opts : ExecOptions) :
    M (List String) ExecResult := do
  let s ← get
  match cmd with
  | ["vercel", "env", "ls", _env, "--no-color"] =>
    pure ⟨0, String.intercalate "\n" s, ""⟩
  | ["vercel", "env", "add", k, _env, "--no-color"] =>
    if s.contains k then pure ⟨1, "", ""⟩
    else do
      set (s ++ [k])
      pure ⟨0, "", ""⟩
  | ["vercel", "env", "add", k, _env, "--force", "--no-color"] => do
    set (if s.contains k then s else s ++ [k])
    pure ⟨0, "", ""⟩
  | ["vercel", "env", "rm", k, _env, "--yes", "--no-color"] => do
    set (s.filter (fun n => n != k))
    pure ⟨0, "", ""⟩
  | _ => pure ⟨1, "", "unexpected command"⟩

def vercelCtx (projectDir : String) : AdapterContext (List String) :=
  ⟨projectDir, vercelStoreExec⟩

/-- The string value of `k` in a process environment object (an
undefined-valued entry counts as absent, as `mergeEnv` skips it). -/
def envLookup (base : List (String × Option String)) (k : String) : Option String :=
  (base.find? (fun p => p.1 == k)).bind (fun p => p.2)

/-! ## Basic lemmas: run, records, folds -/

theorem run_eq {σ α : Type} (x : M σ α) (s : σ) : x.run s = x s := rfl

theorem run_bind {σ α β : Type} (x : M σ α) (f : α → M σ β) (s : σ) :
    (x >>= f).run s =
      match x.run s with
      | .ok a s2 => (f a).run s2
      | .error e s2 => .error e s2 := by
  show EStateM.bind x f s = _
  unfold EStateM.bind
  simp only [run_eq]
  cases x s <;> rfl

theorem run_pure {σ α : Type} (a : α) (s : σ) :
    (pure a : M σ α).run s = .ok a s := rfl

theorem run_throw {σ α : Type} (e : String) (s : σ) :
    (throw e : M σ α).run s = .error e s := rfl

theorem run_get {σ : Type} (s : σ) : (get : M σ σ).run s = .ok s s := rfl

theorem run_set {σ : Type} (s2 s : σ) : (set s2 : M σ PUnit).run s = .ok ⟨⟩ s2 := rfl

theorem run_modify {σ : Type} (f : σ → σ) (s : σ) :
    (modify f : M σ PUnit).run s = .ok ⟨⟩ (f s) := rfl

theorem run_liftE_ok {σ α : Type} (a : α) (s : σ) :
    (liftE (σ := σ) (Except.ok a)).run s = .ok a s := rfl

theorem run_liftE_error {σ α : Type} (e : String) (s : σ) :
    (liftE (σ := σ) (α := α) (Except.error e)).run s = .error e s := rfl

theorem run_forM_recordOp {α : Type} (g : α → AdapterOp) (l : List α) (s : List AdapterOp) :
    (List.forM l (fun a => recordOp (g a))).run s = .ok ⟨⟩ (s ++ l.map g) := by
  induction l generalizing s with
  | nil => show EStateM.Result.ok _ _ = _; simp
  | cons a rest ih =>
    have h1 : (List.forM (a :: rest) (fun x => recordOp (g x))).run s =
        (List.forM rest (fun x => recordOp (g x))).run (s ++ [g a]) := rfl
    rw [h1, ih]
    simp

theorem recordGet_nil (k : String) : recordGet [] k = none := rfl

theorem recordGet_cons (p : String × String) (r : List (String × String)) (k : String) :
    recordGet (p :: r) k = if p.1 == k then some p.2 else recordGet r k := by
  by_cases h : p.1 == k
  · simp [recordGet, List.find?_cons_of_pos, h]
  · simp only [Bool.not_eq_true] at h
    simp [recordGet, List.find?_cons_of_neg, h]

theorem recordSet_cons (p : String × String) (r : List (String × String)) (k v : String) :
    recordSet (p :: r) k v = if p.1 == k then (k, v) :: r else p :: recordSet r k v := rfl

theorem recordGet_recordSet_self (r : List (String × String)) (k v : String) :
    recordGet (recordSet r k v) k = some v := by
  induction r with
  | nil => simp [recordSet, recordGet_cons]
  | cons p rest ih =>
    rw [recordSet_cons]
    by_cases h : p.1 == k
    · simp [h, recordGet_cons]
    · simp [h, recordGet_cons, ih]

theorem recordGet_recordSet_ne (r : List (String × String)) (k v q : String)
    (h : q ≠ k) : recordGet (recordSet r k v) q = recordGet r q := by
  have hkq : (k == q) = false := by
    simp only [beq_eq_false_iff_ne, ne_eq]
    exact fun hh => h hh.symm
  induction r with
  | nil => simp [recordSet, recordGet_cons, recordGet_nil, hkq]
  | cons p rest ih =>
    rw [recordSet_cons]
    by_cases hpk : p.1 == k
    · have hk : p.1 = k := by simpa using hpk
      have hpq : (p.1 == q) = false := by rw [hk]; exact hkq
      simp [hpk, recordGet_cons, hkq, hpq]
    · simp [hpk, recordGet_cons, ih]

theorem assocLast_nil (k : String) : assocLast [] k = none := rfl

theorem assocLast_cons (p : String × String) (l : List (String × String)) (k : String) :
    assocLast (p :: l) k =
      match assocLast l k with
      | some v => some v
      | none => if p.1 == k then some p.2 else none := by
  simp only [assocLast, List.reverse_cons, List.find?_append]
  cases hl : (l.reverse.find? fun p => p.1 == k) with
  | some q => simp [Option.orElse, hl]
  | none =>
    by_cases h : p.1 == k
    · simp [Option.orElse, hl, List.find?_cons_of_pos, h]
    · simp only [Bool.not_eq_true] at h
      simp [Option.orElse, hl, List.find?_cons_of_neg, h]

/-- Folding `recordSet` over an entry list: the last occurrence of a key
wins, and untouched keys fall through to the accumulator. -/
theorem recordGet_foldl_recordSet (l : List (String × String))
    (acc : List (String × String)) (k : String) :
    recordGet (l.foldl (fun a kv => recordSet a kv.1 kv.2) acc) k =
      match assocLast l k with
      | some v => some v
      | none => recordGet acc k := by
  induction l generalizing acc with
  | nil => simp [assocLast_nil]
  | cons p rest ih =>
    rw [List.foldl_cons, ih, assocLast_cons]
    cases hr : assocLast rest k with
    | some v => simp
    | none =>
      by_cases h : p.1 == k
      · have : p.1 = k := by simpa using h
        simp [h, this, recordGet_recordSet_self]
      · have hne : k ≠ p.1 := by
          intro hh
          simp [hh] at h
        simp [h, recordGet_recordSet_ne _ _ _ _ hne]

theorem recordGet_parseDotenv (content : String) (k : String) :
    recordGet (parseDotenv content) k = assocLast (dotenvLineEntries content) k := by
  rw [parseDotenv, recordGet_foldl_recordSet]
  cases assocLast (dotenvLineEntries content) k <;> simp [recordGet_nil]

theorem keysOf_recordSet (r : List (String × String)) (k v : String) :
    keysOf (recordSet r k v) = if k ∈ keysOf r then keysOf r else keysOf r ++ [k] := by
  induction r with
  | nil => simp [recordSet, keysOf]
  | cons p rest ih =>
    rw [recordSet_cons]
    by_cases h : p.1 == k
    · have hk : p.1 = k := by simpa using h
      simp [h, keysOf, hk]
    · have hne : p.1 ≠ k := by simpa using h
      rw [if_neg h]
      have lcons : keysOf (p :: recordSet rest k v) = p.1 :: keysOf (recordSet rest k v) := rfl
      have rcons : keysOf (p :: rest) = p.1 :: keysOf rest := rfl
      rw [lcons, ih, rcons]
      by_cases hm : k ∈ keysOf rest
      · rw [if_pos hm, if_pos (by simp [List.mem_cons, hm])]
      · have hnot : ¬ k ∈ p.1 :: keysOf rest := by
          intro hcon
          rcases List.mem_cons.mp hcon with hc | hc
          · exact hne hc.symm
          · exact hm hc
        rw [if_neg hm, if_neg hnot, List.cons_append]

theorem nodup_keysOf_recordSet (r : List (String × String)) (k v : String)
    (h : (keysOf r).Nodup) : (keysOf (recordSet r k v)).Nodup := by
  rw [keysOf_recordSet]
  by_cases hm : k ∈ keysOf r
  · simpa [hm] using h
  · simp only [hm, if_false]
    simpa [List.nodup_append] using ⟨h, hm⟩

theorem nodup_keysOf_foldl_recordSet (l : List (String × String))
    (acc : List (String × String)) (h : (keysOf acc).Nodup) :
    (keysOf (l.foldl (fun a kv => recordSet a kv.1 kv.2) acc)).Nodup := by
  induction l generalizing acc with
  | nil => simpa
  | cons p rest ih => exact ih _ (nodup_keysOf_recordSet _ _ _ h)

theorem nodup_keysOf_parseDotenv (content : String) :
    (keysOf (parseDotenv content)).Nodup :=
  nodup_keysOf_foldl_recordSet _ _ (by simp [keysOf])

/-- On a record with no duplicate keys, lookup agrees with membership. -/
theorem recordGet_eq_some_iff_mem (r : List (String × String)) (k v : String)
    (h : (keysOf r).Nodup) : recordGet r k = some v ↔ (k, v) ∈ r := by
  induction r with
  | nil => simp [recordGet_nil]
  | cons p rest ih =>
    rw [recordGet_cons]
    simp only [keysOf, List.map_cons, List.nodup_cons] at h
    by_cases hpk : p.1 == k
    · have hk : p.1 = k := by simpa using hpk
      have hnot : (k, v) ∉ rest := by
        intro hmem
        have hm2 : k ∈ List.map Prod.fst rest := List.mem_map_of_mem Prod.fst hmem
        rw [← hk] at hm2
        exact h.1 hm2
      simp only [hpk, if_true, List.mem_cons]
      constructor
      · intro hv
        have hv2 : p.2 = v := by simpa using hv
        left
        cases p with
        | mk a b =>
          simp only at hk hv2
          rw [hk, hv2]
      · intro hv
        rcases hv with hv | hv
        · cases p with
          | mk a b =>
            have h1 : k = a := congrArg Prod.fst hv
            have h2 : v = b := congrArg Prod.snd hv
            simp [h2]
        · exact absurd hv hnot
    · have hpk2 : (p.1 == k) = false := by simpa using hpk
      have hk : p.1 ≠ k := by simpa using hpk
      have hne : (k, v) ≠ p := by
        intro hh
        exact hk (by rw [← hh])
      rw [hpk2]
      simp only [Bool.false_eq_true, if_false, List.mem_cons]
      rw [ih h.2]
      exact ⟨fun hm => Or.inr hm, fun hm => hm.resolve_left (fun hh => hne hh)⟩

/-- `Object.entries` reorders but neither adds, drops nor rewrites entries. -/
theorem jsObjectEntries_perm (r : List (String × String)) : List.Perm (jsObjectEntries r) r := by
  unfold jsObjectEntries
  refine List.Perm.trans (List.Perm.append ?_ (List.Perm.refl _)) (List.filter_append_perm _ r)
  exact List.perm_insertionSort _ _

theorem keysOf_perm {r₁ r₂ : List (String × String)} (h : List.Perm r₁ r₂) :
    List.Perm (keysOf r₁) (keysOf r₂) := h.map Prod.fst

/-- Setting an absent key appends the entry. -/
theorem recordSet_eq_append (r : List (String × String)) (k v : String)
    (h : k ∉ keysOf r) : recordSet r k v = r ++ [(k, v)] := by
  induction r with
  | nil => rfl
  | cons p rest ih =>
    simp only [keysOf, List.map_cons, List.mem_cons] at h
    push_neg at h
    have hf : (p.1 == k) = false := by
      simp only [beq_eq_false_iff_ne, ne_eq]
      exact fun hh => h.1 hh.symm
    rw [recordSet_cons, hf]
    simp only [Bool.false_eq_true, if_false, List.cons_append, List.cons.injEq, true_and]
    exact ih (by simpa [keysOf] using h.2)

/-- Folding `recordSet` over entries whose keys are fresh and distinct just
appends them. -/
theorem foldl_recordSet_eq_append (l : List (String × String)) :
    ∀ acc : List (String × String), (keysOf l).Nodup →
      (∀ a ∈ keysOf l, a ∉ keysOf acc) →
      l.foldl (fun a kv => recordSet a kv.1 kv.2) acc = acc ++ l := by
  induction l with
  | nil => intro acc _ _; simp
  | cons p rest ih =>
    intro acc hnd hdisj
    simp only [keysOf, List.map_cons, List.nodup_cons] at hnd
    rw [List.foldl_cons, recordSet_eq_append acc p.1 p.2
      (hdisj p.1 (by simp [keysOf]))]
    rw [ih (acc ++ [p]) hnd.2]
    · simp
    · intro a ha hcon
      have hcon2 : a ∈ keysOf acc ++ [p.1] := by
        have : keysOf (acc ++ [p]) = keysOf acc ++ [p.1] := by simp [keysOf]
        rwa [this] at hcon
      rcases List.mem_append.mp hcon2 with hc | hc
      · exact hdisj a (List.mem_cons_of_mem p.1 ha) hc
      · have ha2 : a = p.1 := by simpa using hc
        exact hnd.1 (ha2 ▸ ha)

theorem foldl_recordSet_id (l : List (String × String)) (hnd : (keysOf l).Nodup) :
    l.foldl (fun a kv => recordSet a kv.1 kv.2) [] = l := by
  simpa using foldl_recordSet_eq_append l [] hnd (by simp [keysOf])

/-! ## Claim C7: merged child environment -/

/-- The entry `mergeEnv`'s first loop leaves for key `k`: the last
string-valued occurrence (undefined-valued entries are skipped). -/
def envLookupLastSome (l : List (String × Option String)) (k : String) : Option String :=
  ((l.filter (fun p => p.2.isSome)).reverse.find? (fun p => p.1 == k)).bind (fun p => p.2)

theorem envLookupLastSome_nil (k : String) : envLookupLastSome [] k = none := rfl

theorem envLookupLastSome_cons_some (p : String × Option String)
    (rest : List (String × Option String)) (k w : String) (hv : p.2 = some w) :
    envLookupLastSome (p :: rest) k =
      match envLookupLastSome rest k with
      | some v => some v
      | none => if p.1 == k then some w else none := by
  unfold envLookupLastSome
  have hfil : (p :: rest).filter (fun q => q.2.isSome) =
      p :: rest.filter (fun q => q.2.isSome) := by
    simp [List.filter_cons, hv]
  rw [hfil, List.reverse_cons, List.find?_append]
  cases hr : ((rest.filter (fun q => q.2.isSome)).reverse.find? fun q => q.1 == k) with
  | some q =>
    have hmem := List.mem_filter.mp (List.mem_reverse.mp (List.mem_of_find?_eq_some hr))
    obtain ⟨u, hu⟩ := Option.isSome_iff_exists.mp hmem.2
    simp [Option.or, hu]
  | none =>
    by_cases hpk : p.1 == k
    · simp [Option.or, List.find?, hpk, hv]
    · have hpk2 : (p.1 == k) = false := by simpa using hpk
      simp [Option.or, List.find?, hpk2]

theorem envLookupLastSome_cons_none (p : String × Option String)
    (rest : List (String × Option String)) (k : String) (hv : p.2 = none) :
    envLookupLastSome (p :: rest) k = envLookupLastSome rest k := by
  unfold envLookupLastSome
  have hfil : (p :: rest).filter (fun q => q.2.isSome) =
      rest.filter (fun q => q.2.isSome) := by
    simp [List.filter_cons, hv]
  rw [hfil]

theorem recordGet_foldl_env (l : List (String × Option String)) :
    ∀ (acc : List (String × String)) (k : String),
    recordGet (l.foldl (fun a p =>
        match p.2 with | some v => recordSet a p.1 v | none => a) acc) k =
      match envLookupLastSome l k with
      | some v => some v
      | none => recordGet acc k := by
  induction l with
  | nil => intro acc k; simp [envLookupLastSome_nil]
  | cons p rest ih =>
    intro acc k
    rw [List.foldl_cons, ih]
    cases hv : p.2 with
    | some w =>
      rw [envLookupLastSome_cons_some p rest k w hv]
      cases hrest : envLookupLastSome rest k with
      | some v => simp
      | none =>
        by_cases hpk : p.1 == k
        · have hk : p.1 = k := by simpa using hpk
          simp only [hpk, if_true]
          rw [hk]
          exact recordGet_recordSet_self acc k w
        · have hpk2 : (p.1 == k) = false := by simpa using hpk
          have hne : k ≠ p.1 := fun hh => by simp [hh] at hpk2
          simp [hpk2, recordGet_recordSet_ne _ _ _ _ hne]
    | none =>
      rw [envLookupLastSome_cons_none p rest k hv]

theorem recordGet_eq_none_of_not_mem (r : List (String × String)) (k : String)
    (h : k ∉ keysOf r) : recordGet r k = none := by
  induction r with
  | nil => rfl
  | cons p rest ih =>
    simp only [keysOf, List.map_cons, List.mem_cons] at h
    push_neg at h
    have hf : (p.1 == k) = false := by
      simp only [beq_eq_false_iff_ne, ne_eq]
      exact fun hh => h.1 (hh ▸ rfl)
    rw [recordGet_cons, hf]
    simp only [Bool.false_eq_true, if_false]
    exact ih (by simpa [keysOf] using h.2)

theorem assocLast_eq_recordGet (l : List (String × String)) (k : String)
    (h : (keysOf l).Nodup) : assocLast l k = recordGet l k := by
  induction l with
  | nil => rfl
  | cons p rest ih =>
    simp only [keysOf, List.map_cons, List.nodup_cons] at h
    rw [assocLast_cons, recordGet_cons, ih h.2]
    by_cases hpk : p.1 == k
    · have hk : p.1 = k := by simpa using hpk
      have hnone : recordGet rest k = none :=
        recordGet_eq_none_of_not_mem rest k (by rw [← hk]; exact h.1)
      simp [hpk, hnone]
    · have hpk2 : (p.1 == k) = false := by simpa using hpk
      simp only [hpk2, Bool.false_eq_true, if_false]
      cases recordGet rest k <;> simp

theorem envLookup_cons (p : String × Option String) (rest : List (String × Option String))
    (k : String) :
    envLookup (p :: rest) k = if p.1 == k then p.2 else envLookup rest k := by
  unfold envLookup
  by_cases hpk : p.1 == k
  · simp [List.find?_cons_of_pos, hpk]
  · simp only [Bool.not_eq_true] at hpk
    simp [List.find?_cons_of_neg, hpk]

theorem envLookup_eq_none_of_not_mem (l : List (String × Option String)) (k : String)
    (h : k ∉ l.map Prod.fst) : envLookup l k = none := by
  induction l with
  | nil => rfl
  | cons p rest ih =>
    simp only [List.map_cons, List.mem_cons] at h
    push_neg at h
    rw [envLookup_cons]
    have hf : (p.1 == k) = false := by
      simp only [beq_eq_false_iff_ne, ne_eq]
      exact fun hh => h.1 (hh ▸ rfl)
    simp only [hf, Bool.false_eq_true, if_false]
    exact ih h.2

theorem envLookupLastSome_eq_envLookup (l : List (String × Option String)) (k : String)
    (h : (l.map Prod.fst).Nodup) : envLookupLastSome l k = envLookup l k := by
  induction l with
  | nil => rfl
  | cons p rest ih =>
    simp only [List.map_cons, List.nodup_cons] at h
    rw [envLookup_cons]
    cases hv : p.2 with
    | some w =>
      rw [envLookupLastSome_cons_some p rest k w hv, ih h.2]
      by_cases hpk : p.1 == k
      · have hk : p.1 = k := by simpa using hpk
        have hnone : envLookup rest k = none :=
          envLookup_eq_none_of_not_mem rest k (by rw [← hk]; exact h.1)
        simp [hpk, hnone, hv]
      · have hpk2 : (p.1 == k) = false := by simpa using hpk
        simp only [hpk2, Bool.false_eq_true, if_false]
        cases envLookup rest k <;> simp
    | none =>
      rw [envLookupLastSome_cons_none p rest k hv, ih h.2]
      by_cases hpk : p.1 == k
      · have hk : p.1 = k := by simpa using hpk
        have hnone : envLookup rest k = none :=
          envLookup_eq_none_of_not_mem rest k (by rw [← hk]; exact h.1)
        simp [hpk, hnone, hv]
      · have hpk2 : (p.1 == k) = false := by simpa using hpk
        simp [hpk2]

theorem recordGet_mergeEnv (base : List (String × Option String))
    (overrides : List (String × String)) (k : String) :
    recordGet (mergeEnv base overrides) k =
      match assocLast overrides k with
      | some v => some v
      | none =>
        match envLookupLastSome base k with
        | some v => some v
        | none => none := by
  unfold mergeEnv
  rw [recordGet_foldl_recordSet, recordGet_foldl_env]
  cases assocLast overrides k <;> cases envLookupLastSome base k <;> simp [recordGet_nil]

/-- Claim C7: when `options.env` is provided, the child environment is the
current process environment overlaid with the provided entries — a provided
entry wins on every key collision, untouched keys keep their process value —
and when `options.env` is absent the environment handed to `spawn` is
`undefined`, i.e. the child inherits the current environment unchanged. -/
theorem execEnvMergesWithOverrideWins (processEnv : List (String × Option String))
    (overrides : List (String × String)) (options : ExecOptions) (k : String)
    (hbase : (processEnv.map Prod.fst).Nodup) (hover : (keysOf overrides).Nodup) :
    (options.env = some overrides →
      execEnv processEnv options = some (mergeEnv processEnv overrides) ∧
      recordGet (mergeEnv processEnv overrides) k =
        match recordGet overrides k with
        | some v => some v
        | none => envLookup processEnv k) ∧
    (options.env = none → execEnv processEnv options = none) := by
  constructor
  · intro h
    refine ⟨by simp [execEnv, h], ?_⟩
    rw [recordGet_mergeEnv, assocLast_eq_recordGet _ _ hover,
      envLookupLastSome_eq_envLookup _ _ hbase]
    cases recordGet overrides k <;> cases hl : envLookup processEnv k <;> simp [hl]
  · intro h
    simp [execEnv, h]

theorem execEnvMergesWithOverrideWins_witness :
    recordGet
        (mergeEnv [("PATH", some "/bin"), ("HOME", some "/root"), ("KEY", some "old")]
          [("KEY", "new")]) "KEY" = some "new" ∧
    recordGet
        (mergeEnv [("PATH", some "/bin"), ("HOME", some "/root"), ("KEY", some "old")]
          [("KEY", "new")]) "HOME" = some "/root" ∧
    execEnv [("PATH", some "/bin")] ⟨"/p", none, none, false⟩ = none := by
  refine ⟨?_, ?_, ?_⟩
  · exact (((execEnvMergesWithOverrideWins
      [("PATH", some "/bin"), ("HOME", some "/root"), ("KEY", some "old")] [("KEY", "new")]
      ⟨"/p", some [("KEY", "new")], none, false⟩ "KEY" (by decide) (by decide)).1 rfl).2).trans
      (by decide)
  · exact (((execEnvMergesWithOverrideWins
      [("PATH", some "/bin"), ("HOME", some "/root"), ("KEY", some "old")] [("KEY", "new")]
      ⟨"/p", some [("KEY", "new")], none, false⟩ "HOME" (by decide) (by decide)).1 rfl).2).trans
      (by decide)
  · exact (execEnvMergesWithOverrideWins [("PATH", some "/bin")] []
      ⟨"/p", none, none, false⟩ "PATH" (by decide) (by decide)).2 rfl

/-- Claim C8: the executor model is a total function into `ExecResult` (it
never raises); a spawn failure — the `error` event, including the empty and
empty-string command cases — surfaces as exit code 1 in the result, never as
an exception. -/
theorem execSpawnFailureIsNonzeroExit (capturedStdout capturedStderr : String)
    (options : ExecOptions) :
    (∀ cmd : List String,
      (exec .errorEvent capturedStdout capturedStderr cmd options).exitCode = 1) ∧
    (∀ outcome : SpawnOutcome,
      exec outcome capturedStdout capturedStderr [] options =
        ⟨1, "", "No command provided"⟩) ∧
    (∀ (outcome : SpawnOutcome) (rest : List String),
      exec outcome capturedStdout capturedStderr ("" :: rest) options =
        ⟨1, "", "No command provided"⟩) := by
  refine ⟨?_, fun _outcome => rfl, fun _outcome _rest => by simp [exec]⟩
  intro cmd
  match cmd with
  | [] => rfl
  | c :: args =>
    by_cases hc : c = ""
    · simp [exec, hc]
    · by_cases hi : options.interactive <;> simp [exec, hc, hi, waitForExit]

theorem flyPullMessage_eq (environment : String) :
    String.intercalate "\n"
      ["Fly adapter cannot pull secret values for \"" ++ environment ++ "\".",
        "Fly does not expose secret values after upload.",
        "Use local dotenv files as source of truth and push with `better-env load`."] =
    "Fly adapter cannot pull secret values for \"" ++ environment ++
      "\".\nFly does not expose secret values after upload.\nUse local dotenv files as source of truth and push with `better-env load`." := by
  simp only [String.intercalate, String.intercalate.go, String.append_assoc]
  congr 2

theorem cloudflarePullMessage_eq (environment : String) :
    String.intercalate "\n"
      ["Cloudflare adapter cannot pull secret values for \"" ++ environment ++ "\".",
        "Wrangler does not expose secret values after upload.",
        "Use local dotenv files as source of truth and push with `better-env load`."] =
    "Cloudflare adapter cannot pull secret values for \"" ++ environment ++
      "\".\nWrangler does not expose secret values after upload.\nUse local dotenv files as source of truth and push with `better-env load`." := by
  simp only [String.intercalate, String.intercalate.go, String.append_assoc]
  congr 2

set_option maxRecDepth 4096 in
/-- Claim C2: `pull` on the Fly and Cloudflare adapters always fails, for
every environment, project state (`σ`, context) and executor behavior, with
the state untouched (so the executor is never invoked — the rejection is
structural); the message names the provider, the environment and the
recommended alternative workflow (`better-env load`). -/
theorem flyAndCloudflarePullAlwaysReject (σ : Type) (jsonParse : String → Option Jsonish)
    (envFlyApp flyTomlApp : Option String) (flyOptions : FlyAdapterOptions)
    (cfOptions : CloudflareAdapterOptions) (ctx : AdapterContext σ)
    (environment envFile : String) (s : σ) :
    (((flyAdapter jsonParse envFlyApp flyTomlApp flyOptions).pull ctx environment
        envFile).run s =
      .error ("Fly adapter cannot pull secret values for \"" ++ environment ++
        "\".\nFly does not expose secret values after upload.\nUse local dotenv files as source of truth and push with `better-env load`.") s) ∧
    (((cloudflareAdapter jsonParse cfOptions).pull ctx environment envFile).run s =
      .error ("Cloudflare adapter cannot pull secret values for \"" ++ environment ++
        "\".\nWrangler does not expose secret values after upload.\nUse local dotenv files as source of truth and push with `better-env load`.") s) ∧
    List.IsInfix "Fly".data
      ("Fly adapter cannot pull secret values for \"" ++ environment ++
        "\".\nFly does not expose secret values after upload.\nUse local dotenv files as source of truth and push with `better-env load`.").data ∧
    List.IsInfix "Cloudflare".data
      ("Cloudflare adapter cannot pull secret values for \"" ++ environment ++
        "\".\nWrangler does not expose secret values after upload.\nUse local dotenv files as source of truth and push with `better-env load`.").data ∧
    List.IsInfix environment.data
      ("Fly adapter cannot pull secret values for \"" ++ environment ++
        "\".\nFly does not expose secret values after upload.\nUse local dotenv files as source of truth and push with `better-env load`.").data ∧
    List.IsInfix "better-env load".data
      ("Fly adapter cannot pull secret values for \"" ++ environment ++
        "\".\nFly does not expose secret values after upload.\nUse local dotenv files as source of truth and push with `better-env load`.").data := by
  refine ⟨?_, ?_, ?_, ?_, ?_, ?_⟩
  · show (throw (String.intercalate "\n" _) : M σ Unit).run s = _
    rw [run_throw, flyPullMessage_eq]
  · show (throw (String.intercalate "\n" _) : M σ Unit).run s = _
    rw [run_throw, cloudflarePullMessage_eq]
  · refine List.IsPrefix.isInfix (List.IsPrefix.trans
      (show "Fly".data <+: ("Fly adapter cannot pull secret values for \"").data by decide) ?_)
    rw [String.data_append, String.data_append]
    exact (List.prefix_append _ _).trans (List.prefix_append _ _)
  · refine List.IsPrefix.isInfix (List.IsPrefix.trans
      (show "Cloudflare".data <+:
        ("Cloudflare adapter cannot pull secret values for \"").data by decide) ?_)
    rw [String.data_append, String.data_append]
    exact (List.prefix_append _ _).trans (List.prefix_append _ _)
  · refine ⟨("Fly adapter cannot pull secret values for \"").data,
      ("\".\nFly does not expose secret values after upload.\nUse local dotenv files as source of truth and push with `better-env load`.").data, ?_⟩
    simp [String.data_append, List.append_assoc]
  · have h1 : List.IsInfix "better-env load".data
        ("\".\nFly does not expose secret values after upload.\nUse local dotenv files as source of truth and push with `better-env load`.").data := by
      decide
    have h2 : List.IsInfix
        ("\".\nFly does not expose secret values after upload.\nUse local dotenv files as source of truth and push with `better-env load`.").data
        ("Fly adapter cannot pull secret values for \"" ++ environment ++
          "\".\nFly does not expose secret values after upload.\nUse local dotenv files as source of truth and push with `better-env load`.").data := by
      refine List.IsSuffix.isInfix ?_
      rw [String.data_append]
      exact List.suffix_append _ _
    exact h1.trans h2

theorem run_bind_ok {σ α β : Type} {x : M σ α} {f : α → M σ β} {s s2 : σ} {a : α}
    (h : x.run s = .ok a s2) : (x >>= f).run s = (f a).run s2 := by
  rw [run_bind, h]

theorem run_bind_error {σ α β : Type} {x : M σ α} {f : α → M σ β} {s s2 : σ} {e : String}
    (h : x.run s = .error e s2) : (x >>= f).run s = .error e s2 := by
  rw [run_bind, h]

/-- The message thrown by `getEnvironmentConfig` for an unknown name. -/
def unknownEnvironmentMessage (name : String) (known : List String) : String :=
  jsTrim ("Unknown environment \"" ++ name ++ "\". " ++
    (if known.length > 0 then "Known environments: " ++ String.intercalate ", " known
      else ""))

theorem getEnvironmentConfig_not_found {σ : Type} (config : BetterEnvConfig σ)
    (name : String)
    (hfind : (config.environments.getD []).find? (fun p => p.1 == name) = none) :
    getEnvironmentConfig config name =
      .error (unknownEnvironmentMessage name ((config.environments.getD []).map Prod.fst)) := by
  simp only [getEnvironmentConfig, unknownEnvironmentMessage, hfind]

theorem getEnvironmentConfig_found {σ : Type} (config : BetterEnvConfig σ)
    (name : String) (p : String × BetterEnvEnvironmentConfig)
    (hfind : (config.environments.getD []).find? (fun q => q.1 == name) = some p) :
    getEnvironmentConfig config name = .ok p.2 := by
  simp only [getEnvironmentConfig, hfind]

/-- Claim C3: on an environment whose mapping has `remote = null`, `pullEnv`
returns the environment and its local file immediately, while `addEnvVar`
(all three modes), `deleteEnvVar` and `loadEnvFileToRemote` throw the
local-only configuration error — in every case with the state `s` unchanged
for an arbitrary adapter, context and executor, so no adapter method and no
executor call ever runs. -/
theorem localOnlyNeverReachesAdapter (σ : Type)
    (eff : String → List String → M σ Unit) (readFile : String → String)
    (ctx : AdapterContext σ) (config : BetterEnvConfig σ)
    (environmentName : Option String) (envCfg : BetterEnvEnvironmentConfig)
    (filePath key value : String) (sensitive : Bool) (s : σ)
    (hconf : getEnvironmentConfig config
      (resolveEnvironmentName config environmentName) = .ok envCfg)
    (hremote : remoteOf envCfg = none) :
    ((pullEnv eff ctx config environmentName).run s =
      .ok (resolveEnvironmentName config environmentName, envCfg.envFile) s) ∧
    (∀ mode : MutateMode,
      (addEnvVar ctx config mode environmentName key value sensitive).run s =
        .error (localOnlyError (resolveEnvironmentName config environmentName)) s) ∧
    ((deleteEnvVar ctx config environmentName key).run s =
      .error (localOnlyError (resolveEnvironmentName config environmentName)) s) ∧
    (∀ mode : BetterEnvLoadMode,
      (loadEnvFileToRemote readFile ctx config environmentName filePath mode
        sensitive).run s =
        .error (localOnlyError (resolveEnvironmentName config environmentName)) s) := by
  have hstep : (liftE (σ := σ) (getEnvironmentConfig config
      (resolveEnvironmentName config environmentName))).run s = .ok envCfg s := by
    rw [hconf]
    exact run_liftE_ok _ _
  refine ⟨?_, ?_, ?_, ?_⟩
  · show ((liftE (getEnvironmentConfig config
        (resolveEnvironmentName config environmentName)) : M σ _) >>= fun envConfig =>
        match remoteOf envConfig with
        | none => pure (resolveEnvironmentName config environmentName, envConfig.envFile)
        | some remote => do
          config.adapter.pull ctx remote envConfig.envFile
          if config.gitignoreEnsure.getD true then
            eff ctx.projectDir [envConfig.envFile]
          pure (resolveEnvironmentName config environmentName, envConfig.envFile)).run s = _
    rw [run_bind_ok hstep, hremote]
    exact run_pure _ _
  · intro mode
    show ((liftE (getEnvironmentConfig config
        (resolveEnvironmentName config environmentName)) : M σ _) >>= fun envConfig =>
        match remoteOf envConfig with
        | none => throw (localOnlyError (resolveEnvironmentName config environmentName))
        | some remote =>
          match mode with
          | .add => config.adapter.add ctx remote key value sensitive
          | .upsert => config.adapter.upsert ctx remote key value sensitive
          | .update => config.adapter.update ctx remote key value sensitive).run s = _
    rw [run_bind_ok hstep, hremote]
    exact run_throw _ _
  · show ((liftE (getEnvironmentConfig config
        (resolveEnvironmentName config environmentName)) : M σ _) >>= fun envConfig =>
        match remoteOf envConfig with
        | none => throw (localOnlyError (resolveEnvironmentName config environmentName))
        | some remote => config.adapter.delete ctx remote key).run s = _
    rw [run_bind_ok hstep, hremote]
    exact run_throw _ _
  · intro mode
    show ((liftE (getEnvironmentConfig config
        (resolveEnvironmentName config environmentName)) : M σ _) >>= fun envConfig =>
        match remoteOf envConfig with
        | none => throw (localOnlyError (resolveEnvironmentName config environmentName))
        | some remote =>
          loadEnvRemoteBody readFile ctx config filePath mode sensitive remote).run s = _
    rw [run_bind_ok hstep, hremote]
    exact run_throw _ _

theorem localOnlyNeverReachesAdapter_witness :
    ((pullEnv (fun _ _ => pure ()) (opCtx "/p")
        ⟨recordingAdapter ["A"], some [("test", ⟨".env.test", none⟩)], none⟩
        (some "test")).run [] = .ok ("test", ".env.test") []) ∧
    ((addEnvVar (opCtx "/p")
        ⟨recordingAdapter ["A"], some [("test", ⟨".env.test", none⟩)], none⟩
        MutateMode.add (some "test") "K" "V" false).run [] =
      .error (localOnlyError "test") []) ∧
    ((deleteEnvVar (opCtx "/p")
        ⟨recordingAdapter ["A"], some [("test", ⟨".env.test", none⟩)], none⟩
        (some "test") "K").run [] = .error (localOnlyError "test") []) ∧
    ((loadEnvFileToRemote (fun _ => "A=1\n") (opCtx "/p")
        ⟨recordingAdapter ["A"], some [("test", ⟨".env.test", none⟩)], none⟩
        (some "test") ".env" BetterEnvLoadMode.replace false).run [] =
      .error (localOnlyError "test") []) := by
  have h := localOnlyNeverReachesAdapter (List AdapterOp) (fun _ _ => pure ())
    (fun _ => "A=1\n") (opCtx "/p")
    ⟨recordingAdapter ["A"], some [("test", ⟨".env.test", none⟩)], none⟩
    (some "test") ⟨".env.test", none⟩ ".env" "K" "V" false [] (by rfl) (by decide)
  exact ⟨h.1, h.2.1 MutateMode.add, h.2.2.1, h.2.2.2 BetterEnvLoadMode.replace⟩

/-- Claim C9: an omitted environment name resolves to `"development"` for
every orchestration operation, and a supplied name with no entry in the
active environment map makes every operation fail — before any adapter call,
with the state unchanged — with the error that names the requested
environment and lists the known environment names when any exist
(`unknownEnvironmentMessage`). -/
theorem unknownEnvironmentFailsFast (σ : Type)
    (eff : String → List String → M σ Unit) (readFile : String → String)
    (ctx : AdapterContext σ) (config : BetterEnvConfig σ) (name : String)
    (filePath key value : String) (sensitive : Bool) (s : σ)
    (hne : name ≠ "")
    (hfind : (config.environments.getD []).find? (fun p => p.1 == name) = none) :
    resolveEnvironmentName config none = "development" ∧
    pullEnv eff ctx config none = pullEnv eff ctx config (some "development") ∧
    (∀ mode : MutateMode, addEnvVar ctx config mode none key value sensitive =
      addEnvVar ctx config mode (some "development") key value sensitive) ∧
    deleteEnvVar ctx config none key = deleteEnvVar ctx config (some "development") key ∧
    (∀ mode : BetterEnvLoadMode,
      loadEnvFileToRemote readFile ctx config none filePath mode sensitive =
        loadEnvFileToRemote readFile ctx config (some "development") filePath mode
          sensitive) ∧
    ((pullEnv eff ctx config (some name)).run s =
      .error (unknownEnvironmentMessage name
        ((config.environments.getD []).map Prod.fst)) s) ∧
    (∀ mode : MutateMode,
      (addEnvVar ctx config mode (some name) key value sensitive).run s =
        .error (unknownEnvironmentMessage name
          ((config.environments.getD []).map Prod.fst)) s) ∧
    ((deleteEnvVar ctx config (some name) key).run s =
      .error (unknownEnvironmentMessage name
        ((config.environments.getD []).map Prod.fst)) s) ∧
    (∀ mode : BetterEnvLoadMode,
      (loadEnvFileToRemote readFile ctx config (some name) filePath mode
        sensitive).run s =
        .error (unknownEnvironmentMessage name
          ((config.environments.getD []).map Prod.fst)) s) := by
  have hres : resolveEnvironmentName config (some name) = name := by
    simp [resolveEnvironmentName, hne]
  have hstep : (liftE (σ := σ) (getEnvironmentConfig config
      (resolveEnvironmentName config (some name)))).run s =
      .error (unknownEnvironmentMessage name
        ((config.environments.getD []).map Prod.fst)) s := by
    rw [hres, getEnvironmentConfig_not_found config name hfind]
    exact run_liftE_error _ _
  refine ⟨rfl, rfl, fun _mode => rfl, rfl, fun _mode => rfl, ?_, ?_, ?_, ?_⟩
  · show ((liftE (getEnvironmentConfig config
        (resolveEnvironmentName config (some name))) : M σ _) >>= fun envConfig =>
        match remoteOf envConfig with
        | none => pure (resolveEnvironmentName config (some name), envConfig.envFile)
        | some remote => do
          config.adapter.pull ctx remote envConfig.envFile
          if config.gitignoreEnsure.getD true then
            eff ctx.projectDir [envConfig.envFile]
          pure (resolveEnvironmentName config (some name), envConfig.envFile)).run s = _
    rw [run_bind_error hstep]
  · intro mode
    show ((liftE (getEnvironmentConfig config
        (resolveEnvironmentName config (some name))) : M σ _) >>= fun envConfig =>
        match remoteOf envConfig with
        | none => throw (localOnlyError (resolveEnvironmentName config (some name)))
        | some remote =>
          match mode with
          | .add => config.adapter.add ctx remote key value sensitive
          | .upsert => config.adapter.upsert ctx remote key value sensitive
          | .update => config.adapter.update ctx remote key value sensitive).run s = _
    rw [run_bind_error hstep]
  · show ((liftE (getEnvironmentConfig config
        (resolveEnvironmentName config (some name))) : M σ _) >>= fun envConfig =>
        match remoteOf envConfig with
        | none => throw (localOnlyError (resolveEnvironmentName config (some name)))
        | some remote => config.adapter.delete ctx remote key).run s = _
    rw [run_bind_error hstep]
  · intro mode
    show ((liftE (getEnvironmentConfig config
        (resolveEnvironmentName config (some name))) : M σ _) >>= fun envConfig =>
        match remoteOf envConfig with
        | none => throw (localOnlyError (resolveEnvironmentName config (some name)))
        | some remote =>
          loadEnvRemoteBody readFile ctx config filePath mode sensitive remote).run s = _
    rw [run_bind_error hstep]

theorem unknownEnvironmentFailsFast_witness :
    ((pullEnv (fun _ _ => pure ()) (opCtx "/p")
        ⟨recordingAdapter [], some [("development", ⟨".env.development", some "development"⟩),
          ("production", ⟨".env.production", some "production"⟩)], none⟩
        (some "staging")).run [] =
      .error "Unknown environment \"staging\". Known environments: development, production"
        []) ∧
    resolveEnvironmentName
      (⟨recordingAdapter [], some [("development", ⟨".env.development", some "development"⟩),
        ("production", ⟨".env.production", some "production"⟩)], none⟩ :
        BetterEnvConfig (List AdapterOp)) none = "development" := by
  have h := unknownEnvironmentFailsFast (List AdapterOp) (fun _ _ => pure ())
    (fun _ => "") (opCtx "/p")
    ⟨recordingAdapter [], some [("development", ⟨".env.development", some "development"⟩),
      ("production", ⟨".env.production", some "production"⟩)], none⟩
    "staging" ".env" "K" "V" false [] (by decide) (by decide)
  exact ⟨h.2.2.2.2.2.1, h.1⟩

/-- Claim C1: with an adapter exposing the listing capability (observed
through the recording adapter whose listing reports `existingKeys`), `load`
in replace mode on a non-null remote mapping first lists the remote keys,
then deletes exactly the remote keys absent from the parsed file — every
delete before any upsert — then upserts every parsed entry; with an adapter
lacking `listEnvVars` it fails with the "does not support --replace" error
with the state untouched (no adapter operation was invoked); and on the
spec's example (remote `{A:1, B:2}`, file `B=22, C=3`) the resulting remote
state is exactly `{B:22, C:3}`. -/
theorem loadReplaceSemantics (existingKeys : List String) (readFile : String → String)
    (ctx : AdapterContext (List AdapterOp)) (config : BetterEnvConfig (List AdapterOp))
    (environmentName : Option String) (envCfg : BetterEnvEnvironmentConfig)
    (filePath : String) (sensitive : Bool) (remote : String) (s₀ : List AdapterOp)
    (hadapter : config.adapter = recordingAdapter existingKeys)
    (hconf : getEnvironmentConfig config
      (resolveEnvironmentName config environmentName) = .ok envCfg)
    (hremote : remoteOf envCfg = some remote) :
    ((loadEnvFileToRemote readFile ctx config environmentName filePath
        BetterEnvLoadMode.replace sensitive).run s₀ =
      .ok ⟨⟩ (s₀ ++ [AdapterOp.listOp remote] ++
        (existingKeys.filter (fun k =>
          !(jsObjectKeys (parseDotenv
            (readFile (absoluteLoadPath ctx.projectDir filePath)))).contains k)).map
          (fun k => AdapterOp.deleteOp remote k) ++
        (jsObjectEntries (parseDotenv
          (readFile (absoluteLoadPath ctx.projectDir filePath)))).map
          (fun kv => AdapterOp.upsertOp remote kv.1 kv.2 sensitive))) ∧
    (∀ (σ2 : Type) (ctx2 : AdapterContext σ2) (config2 : BetterEnvConfig σ2)
        (envCfg2 : BetterEnvEnvironmentConfig) (s2 : σ2),
      config2.adapter.listEnvVars = none →
      getEnvironmentConfig config2
        (resolveEnvironmentName config2 environmentName) = .ok envCfg2 →
      remoteOf envCfg2 = some remote →
      (loadEnvFileToRemote readFile ctx2 config2 environmentName filePath
        BetterEnvLoadMode.replace sensitive).run s2 =
        .error ("Adapter \"" ++ config2.adapter.name ++
          "\" does not support --replace yet.") s2) ∧
    (applyOps [AdapterOp.listOp "production", AdapterOp.deleteOp "production" "A",
        AdapterOp.upsertOp "production" "B" "22" false,
        AdapterOp.upsertOp "production" "C" "3" false] [("A", "1"), ("B", "2")] =
      [("B", "22"), ("C", "3")]) ∧
    parseDotenv "B=22\nC=3\n" = [("B", "22"), ("C", "3")] := by
  refine ⟨?_, ?_, by decide, by decide⟩
  · obtain ⟨adapter, envs, gi⟩ := config
    simp only at hadapter
    subst hadapter
    have hstep : (liftE (σ := List AdapterOp) (getEnvironmentConfig
        ⟨recordingAdapter existingKeys, envs, gi⟩
        (resolveEnvironmentName ⟨recordingAdapter existingKeys, envs, gi⟩
          environmentName))).run s₀ = .ok envCfg s₀ := by
      rw [hconf]
      exact run_liftE_ok _ _
    show ((liftE (getEnvironmentConfig ⟨recordingAdapter existingKeys, envs, gi⟩
        (resolveEnvironmentName ⟨recordingAdapter existingKeys, envs, gi⟩
          environmentName)) : M (List AdapterOp) _) >>= fun envConfig =>
        match remoteOf envConfig with
        | none => throw (localOnlyError (resolveEnvironmentName
            ⟨recordingAdapter existingKeys, envs, gi⟩ environmentName))
        | some remote => loadEnvRemoteBody readFile ctx
            ⟨recordingAdapter existingKeys, envs, gi⟩ filePath
            BetterEnvLoadMode.replace sensitive remote).run s₀ = _
    rw [run_bind_ok hstep, hremote]
    have hA : ((do
        recordOp (AdapterOp.listOp remote)
        pure existingKeys : M (List AdapterOp) (List String))).run s₀ =
        .ok existingKeys (s₀ ++ [AdapterOp.listOp remote]) := rfl
    have hAB : (((do
        recordOp (AdapterOp.listOp remote)
        pure existingKeys : M (List AdapterOp) (List String))) >>= fun eks =>
        (eks.filter (fun k =>
          !(jsObjectKeys (parseDotenv
            (readFile (absoluteLoadPath ctx.projectDir filePath)))).contains k)).forM
          (fun key => recordOp (AdapterOp.deleteOp remote key))).run s₀ =
        .ok ⟨⟩ (s₀ ++ [AdapterOp.listOp remote] ++
          (existingKeys.filter (fun k =>
            !(jsObjectKeys (parseDotenv
              (readFile (absoluteLoadPath ctx.projectDir filePath)))).contains k)).map
            (fun k => AdapterOp.deleteOp remote k)) := by
      rw [run_bind_ok hA]
      exact run_forM_recordOp _ _ _
    show ((((do
        recordOp (AdapterOp.listOp remote)
        pure existingKeys : M (List AdapterOp) (List String))) >>= fun eks =>
        (eks.filter (fun k =>
          !(jsObjectKeys (parseDotenv
            (readFile (absoluteLoadPath ctx.projectDir filePath)))).contains k)).forM
          (fun key => recordOp (AdapterOp.deleteOp remote key))) >>= fun _ =>
        (jsObjectEntries (parseDotenv
          (readFile (absoluteLoadPath ctx.projectDir filePath)))).forM
          (fun kv => recordOp (AdapterOp.upsertOp remote kv.1 kv.2 sensitive))).run s₀ = _
    rw [run_bind_ok hAB]
    exact run_forM_recordOp _ _ _
  · intro σ2 ctx2 config2 envCfg2 s2 hnolist hconf2 hremote2
    have hstep2 : (liftE (σ := σ2) (getEnvironmentConfig config2
        (resolveEnvironmentName config2 environmentName))).run s2 = .ok envCfg2 s2 := by
      rw [hconf2]
      exact run_liftE_ok _ _
    show ((liftE (getEnvironmentConfig config2
        (resolveEnvironmentName config2 environmentName)) : M σ2 _) >>= fun envConfig =>
        match remoteOf envConfig with
        | none => throw (localOnlyError (resolveEnvironmentName config2 environmentName))
        | some remote => loadEnvRemoteBody readFile ctx2 config2 filePath
            BetterEnvLoadMode.replace sensitive remote).run s2 = _
    rw [run_bind_ok hstep2, hremote2]
    show (loadEnvRemoteBody readFile ctx2 config2 filePath BetterEnvLoadMode.replace
      sensitive remote).run s2 = _
    unfold loadEnvRemoteBody
    rw [hnolist]
    exact run_bind_error (run_throw _ _)

theorem loadReplaceSemantics_witness :
    ((loadEnvFileToRemote (fun _ => "B=22\nC=3\n") (opCtx "/p")
        ⟨recordingAdapter ["A", "B"],
          some [("production", ⟨".env.production", some "production"⟩)], none⟩
        (some "production") ".env" BetterEnvLoadMode.replace false).run [] =
      .ok ⟨⟩ [AdapterOp.listOp "production", AdapterOp.deleteOp "production" "A",
        AdapterOp.upsertOp "production" "B" "22" false,
        AdapterOp.upsertOp "production" "C" "3" false]) ∧
    (applyOps [AdapterOp.listOp "production", AdapterOp.deleteOp "production" "A",
        AdapterOp.upsertOp "production" "B" "22" false,
        AdapterOp.upsertOp "production" "C" "3" false] [("A", "1"), ("B", "2")] =
      [("B", "22"), ("C", "3")]) := by
  have h := loadReplaceSemantics ["A", "B"] (fun _ => "B=22\nC=3\n") (opCtx "/p")
    ⟨recordingAdapter ["A", "B"],
      some [("production", ⟨".env.production", some "production"⟩)], none⟩
    (some "production") ⟨".env.production", some "production"⟩ ".env" false "production"
    [] rfl (by rfl) (by decide)
  exact ⟨h.1.trans (congrArg (fun t => (EStateM.Result.ok PUnit.unit t : EStateM.Result String (List AdapterOp) PUnit)) (by decide)), h.2.2.1⟩

/-- Claim C10: `parseDotenv` keeps, for every key, exactly the value of its
last accepted line (`assocLast` over the per-line entries), its keys are
free of duplicates, and consequently `load` (here in upsert mode, on the
recording adapter) issues exactly one adapter mutation per distinct key —
the entries carried by the trace have pairwise-distinct keys and each holds
the last value of its key — not one mutation per line. -/
theorem parseDotenvLastWinsOneMutationPerKey (readFile : String → String)
    (ctx : AdapterContext (List AdapterOp)) (config : BetterEnvConfig (List AdapterOp))
    (existingKeys : List String) (environmentName : Option String)
    (envCfg : BetterEnvEnvironmentConfig) (filePath : String) (sensitive : Bool)
    (remote : String) (s₀ : List AdapterOp) (content : String) (k v : String)
    (hadapter : config.adapter = recordingAdapter existingKeys)
    (hconf : getEnvironmentConfig config
      (resolveEnvironmentName config environmentName) = .ok envCfg)
    (hremote : remoteOf envCfg = some remote) :
    (recordGet (parseDotenv content) k = assocLast (dotenvLineEntries content) k) ∧
    (keysOf (parseDotenv content)).Nodup ∧
    (keysOf (jsObjectEntries (parseDotenv content))).Nodup ∧
    ((k, v) ∈ jsObjectEntries (parseDotenv content) ↔
      assocLast (dotenvLineEntries content) k = some v) ∧
    ((loadEnvFileToRemote readFile ctx config environmentName filePath
        BetterEnvLoadMode.upsert sensitive).run s₀ =
      .ok ⟨⟩ (s₀ ++
        (jsObjectEntries (parseDotenv
          (readFile (absoluteLoadPath ctx.projectDir filePath)))).map
          (fun kv => AdapterOp.upsertOp remote kv.1 kv.2 sensitive))) := by
  refine ⟨recordGet_parseDotenv content k, nodup_keysOf_parseDotenv content, ?_, ?_, ?_⟩
  · exact (List.Perm.nodup_iff (keysOf_perm (jsObjectEntries_perm _))).mpr
      (nodup_keysOf_parseDotenv content)
  · rw [(jsObjectEntries_perm (parseDotenv content)).mem_iff]
    rw [← recordGet_eq_some_iff_mem _ _ _ (nodup_keysOf_parseDotenv content)]
    rw [recordGet_parseDotenv content k]
  · obtain ⟨adapter, envs, gi⟩ := config
    simp only at hadapter
    subst hadapter
    have hstep : (liftE (σ := List AdapterOp) (getEnvironmentConfig
        ⟨recordingAdapter existingKeys, envs, gi⟩
        (resolveEnvironmentName ⟨recordingAdapter existingKeys, envs, gi⟩
          environmentName))).run s₀ = .ok envCfg s₀ := by
      rw [hconf]
      exact run_liftE_ok _ _
    show ((liftE (getEnvironmentConfig ⟨recordingAdapter existingKeys, envs, gi⟩
        (resolveEnvironmentName ⟨recordingAdapter existingKeys, envs, gi⟩
          environmentName)) : M (List AdapterOp) _) >>= fun envConfig =>
        match remoteOf envConfig with
        | none => throw (localOnlyError (resolveEnvironmentName
            ⟨recordingAdapter existingKeys, envs, gi⟩ environmentName))
        | some remote => loadEnvRemoteBody readFile ctx
            ⟨recordingAdapter existingKeys, envs, gi⟩ filePath
            BetterEnvLoadMode.upsert sensitive remote).run s₀ = _
    rw [run_bind_ok hstep, hremote]
    show (((pure ⟨⟩ : M (List AdapterOp) Unit)) >>= fun _ =>
        (jsObjectEntries (parseDotenv
          (readFile (absoluteLoadPath ctx.projectDir filePath)))).forM
          (fun kv => recordOp (AdapterOp.upsertOp remote kv.1 kv.2 sensitive))).run s₀ = _
    rw [run_bind_ok (run_pure _ _)]
    exact run_forM_recordOp _ _ _

theorem parseDotenvLastWinsOneMutationPerKey_witness :
    (recordGet (parseDotenv "K=1\nK=2\nL=3\nK=4\n") "K" = some "4") ∧
    ((loadEnvFileToRemote (fun _ => "K=1\nK=2\nL=3\nK=4\n") (opCtx "/p")
        ⟨recordingAdapter [], some [("production", ⟨".env.production", some "production"⟩)],
          none⟩
        (some "production") ".env" BetterEnvLoadMode.upsert false).run [] =
      .ok ⟨⟩ [AdapterOp.upsertOp "production" "K" "4" false,
        AdapterOp.upsertOp "production" "L" "3" false]) := by
  have h := parseDotenvLastWinsOneMutationPerKey (fun _ => "K=1\nK=2\nL=3\nK=4\n")
    (opCtx "/p")
    ⟨recordingAdapter [], some [("production", ⟨".env.production", some "production"⟩)],
      none⟩
    [] (some "production") ⟨".env.production", some "production"⟩ ".env" false
    "production" [] "K=1\nK=2\nL=3\nK=4\n" "K" "4" rfl (by rfl) (by decide)
  exact ⟨(h.1).trans (by decide),
    h.2.2.2.2.trans (congrArg (fun t => (EStateM.Result.ok PUnit.unit t : EStateM.Result String (List AdapterOp) PUnit)) (by decide))⟩

/-! ## Claim C6: provider output parser acceptance -/

theorem parseConvexEnvLine_shape (vars : List (String × String)) (raw : List Char) :
    parseConvexEnvLine vars raw = vars ∨
    ∃ key value, isEnvVarName key = true ∧
      parseConvexEnvLine vars raw = recordSet vars key value := by
  unfold parseConvexEnvLine
  dsimp only
  split
  · exact Or.inl rfl
  split
  · exact Or.inl rfl
  split
  · exact Or.inl rfl
  split
  · exact Or.inl rfl
  split
  · exact Or.inl rfl
  split
  next pp =>
    split
    next h => exact Or.inr ⟨_, _, h, rfl⟩
    next h => exact Or.inl rfl
  next =>
    split
    next => exact Or.inl rfl
    next first restParts =>
      split
      next h => exact Or.inl rfl
      next h =>
        simp only [Bool.or_eq_true, Bool.not_eq_true', not_or, decide_eq_true_eq] at h
        push_neg at h
        exact Or.inr ⟨_, _, by simpa using h.1, rfl⟩

theorem parseRailwayPlainLine_shape (out : List (String × String)) (raw : List Char) :
    parseRailwayPlainLine out raw = out ∨
    ∃ key value, isEnvVarName key = true ∧
      parseRailwayPlainLine out raw = recordSet out key value := by
  unfold parseRailwayPlainLine
  dsimp only
  split
  · exact Or.inl rfl
  split
  · exact Or.inl rfl
  split
  next pp =>
    split
    next h => exact Or.inr ⟨_, _, h, rfl⟩
    next h => exact Or.inl rfl
  next =>
    split
    next => exact Or.inl rfl
    next first restParts =>
      split
      next h => exact Or.inr ⟨_, _, h, rfl⟩
      next h => exact Or.inl rfl

theorem parseVercelEnvLsLine_shape (acc : List String) (raw : List Char) :
    parseVercelEnvLsLine acc raw = acc ∨
    ∃ key, isEnvVarName key = true ∧ parseVercelEnvLsLine acc raw = acc ++ [key] := by
  unfold parseVercelEnvLsLine
  dsimp only
  split
  · exact Or.inl rfl
  split
  · exact Or.inl rfl
  split
  · exact Or.inl rfl
  split
  · exact Or.inl rfl
  split
  · exact Or.inl rfl
  split
  next => exact Or.inl rfl
  next first rest =>
    split
    next h => exact Or.inr ⟨_, h, rfl⟩
    next h => exact Or.inl rfl

theorem mem_keysOf_recordSet (r : List (String × String)) (k v q : String)
    (h : q ∈ keysOf (recordSet r k v)) : q ∈ keysOf r ∨ q = k := by
  rw [keysOf_recordSet] at h
  by_cases hm : k ∈ keysOf r
  · rw [if_pos hm] at h
    exact Or.inl h
  · rw [if_neg hm] at h
    rcases List.mem_append.mp h with hc | hc
    · exact Or.inl hc
    · exact Or.inr (by simpa using hc)

theorem keys_foldl_record_sound
    (step : List (String × String) → List Char → List (String × String))
    (hstep : ∀ acc raw, step acc raw = acc ∨
      ∃ key value, isEnvVarName key = true ∧ step acc raw = recordSet acc key value)
    (lines : List (List Char)) :
    ∀ acc : List (String × String), (∀ q ∈ keysOf acc, isEnvVarName q = true) →
    ∀ q ∈ keysOf (lines.foldl step acc), isEnvVarName q = true := by
  induction lines with
  | nil => intro acc hacc q hq; exact hacc q hq
  | cons raw rest ih =>
    intro acc hacc q hq
    rw [List.foldl_cons] at hq
    refine ih (step acc raw) ?_ q hq
    rcases hstep acc raw with hsame | ⟨key, value, hkey, hset⟩
    · rw [hsame]; exact hacc
    · rw [hset]
      intro p hp
      rcases mem_keysOf_recordSet _ _ _ _ hp with hc | hc
      · exact hacc p hc
      · rw [hc]; exact hkey

theorem mem_foldl_dedup_aux (l : List String) :
    ∀ acc q, q ∈ l.foldl (fun acc k => if acc.contains k then acc else acc ++ [k]) acc →
      q ∈ acc ∨ q ∈ l := by
  induction l with
  | nil => intro acc q h; exact Or.inl h
  | cons a rest ih =>
    intro acc q h
    rw [List.foldl_cons] at h
    rcases ih _ q h with hc | hc
    · by_cases hcont : acc.contains a
      · rw [if_pos hcont] at hc
        exact Or.inl hc
      · rw [if_neg hcont] at hc
        rcases List.mem_append.mp hc with hd | hd
        · exact Or.inl hd
        · exact Or.inr (by simp [List.mem_cons]; left; simpa using hd)
    · exact Or.inr (List.mem_cons_of_mem a hc)

theorem mem_jsSetDedup (l : List String) (q : String) (h : q ∈ jsSetDedup l) : q ∈ l := by
  rcases mem_foldl_dedup_aux l [] q h with hc | hc
  · exact absurd hc (List.not_mem_nil q)
  · exact hc

theorem keys_foldl_vercel_sound (lines : List (List Char)) :
    ∀ acc : List String, (∀ q ∈ acc, isEnvVarName q = true) →
    ∀ q ∈ lines.foldl parseVercelEnvLsLine acc, isEnvVarName q = true := by
  induction lines with
  | nil => intro acc hacc q hq; exact hacc q hq
  | cons raw rest ih =>
    intro acc hacc q hq
    rw [List.foldl_cons] at hq
    refine ih (parseVercelEnvLsLine acc raw) ?_ q hq
    rcases parseVercelEnvLsLine_shape acc raw with hsame | ⟨key, hkey, hset⟩
    · rw [hsame]; exact hacc
    · rw [hset]
      intro p hp
      rcases List.mem_append.mp hp with hc | hc
      · exact hacc p hc
      · rw [show p = key by simpa using hc]; exact hkey

/-- Claim C6, amended: every entry any of the three plain-text provider
parsers accepts has a key matching `[A-Za-z_][A-Za-z0-9_]*` (the parsers are
total functions, so unaccepted lines are silently skipped, never a parse
error) — but the pattern is a necessary, not sufficient, gate: banner
filters and the convex two-token rule can drop lines whose key matches. -/
theorem parsersAcceptOnlyValidKeys :
    (∀ (stdout : String) (k : String),
      k ∈ parseVercelEnvLs stdout → isEnvVarName k = true) ∧
    (∀ (stdout : String) (k : String),
      k ∈ keysOf (parseConvexEnvList stdout) → isEnvVarName k = true) ∧
    (∀ (stdout : String) (k : String),
      k ∈ keysOf (parseRailwayPlainVariables stdout) → isEnvVarName k = true) := by
  refine ⟨?_, ?_, ?_⟩
  · intro stdout k hk
    unfold parseVercelEnvLs at hk
    exact keys_foldl_vercel_sound _ [] (by simp) k (mem_jsSetDedup _ k hk)
  · intro stdout k hk
    unfold parseConvexEnvList at hk
    exact keys_foldl_record_sound parseConvexEnvLine parseConvexEnvLine_shape _ []
      (by simp [keysOf]) k hk
  · intro stdout k hk
    unfold parseRailwayPlainVariables at hk
    exact keys_foldl_record_sound parseRailwayPlainLine parseRailwayPlainLine_shape _ []
      (by simp [keysOf]) k hk

/-- Claim C6, counterexample to "the pattern is the sole validity gate": the
convex parser drops `CONVEX_URL=abc` (banner prefix filter) and the bare
token `KEYS` (two-token rule), and the vercel parser drops `NAME value`
(banner prefix filter), even though every one of these extracted keys
matches the pattern. -/
theorem parserDropsLineWithValidKey :
    isEnvVarName "CONVEX_URL" = true ∧
    parseConvexEnvList "CONVEX_URL=abc" = [] ∧
    isEnvVarName "KEYS" = true ∧
    parseConvexEnvList "KEYS" = [] ∧
    isEnvVarName "NAME" = true ∧
    parseVercelEnvLs "NAME value" = [] ∧
    parseRailwayPlainVariables "CONVEX_URL=abc" = [("CONVEX_URL", "abc")] := by
  refine ⟨by decide, by decide, by decide, by decide, by decide, by decide, by decide⟩

theorem parsersAcceptOnlyValidKeys_witness :
    "FOO" ∈ parseVercelEnvLs "FOO value" ∧ isEnvVarName "FOO" = true ∧
    "BAR" ∈ keysOf (parseConvexEnvList "BAR=1") ∧
    "BAZ" ∈ keysOf (parseRailwayPlainVariables "BAZ=2") :=
  ⟨by decide, parsersAcceptOnlyValidKeys.1 "FOO value" "FOO" (by decide),
    by decide, by decide⟩

/-! ## Character-list helpers for trims and key extraction -/

theorem takeWhile_append_stop (p : Char → Bool) (l1 : List Char) (c : Char)
    (l2 : List Char) (h1 : ∀ x ∈ l1, p x = true) (hc : p c = false) :
    (l1 ++ c :: l2).takeWhile p = l1 ∧ (l1 ++ c :: l2).dropWhile p = c :: l2 := by
  induction l1 with
  | nil => simp [List.takeWhile_cons, List.dropWhile_cons, hc]
  | cons a rest ih =>
    have ha : p a = true := h1 a (List.mem_cons_self a rest)
    have hrest := ih (fun x hx => h1 x (List.mem_cons_of_mem a hx))
    simp [List.takeWhile_cons, List.dropWhile_cons, ha, hrest.1, hrest.2]

theorem dropWhile_eq_self_of_head (p : Char → Bool) (l : List Char)
    (h : ∀ c, l.head? = some c → p c = false) : l.dropWhile p = l := by
  cases l with
  | nil => rfl
  | cons a rest => simp [List.dropWhile_cons, h a rfl]

theorem jsTrimList_eq_self (l : List Char)
    (h1 : ∀ c, l.head? = some c → isJsSpace c = false)
    (h2 : ∀ c, l.getLast? = some c → isJsSpace c = false) : jsTrimList l = l := by
  unfold jsTrimList
  rw [dropWhile_eq_self_of_head _ l h1]
  rw [dropWhile_eq_self_of_head _ l.reverse
    (fun c hc => h2 c (by rwa [List.head?_reverse] at hc))]
  exact List.reverse_reverse l

theorem jsTrimList_append_newline (l : List Char) (hne : l ≠ [])
    (h1 : ∀ c, l.head? = some c → isJsSpace c = false)
    (h2 : ∀ c, l.getLast? = some c → isJsSpace c = false) :
    jsTrimList (l ++ ['\n']) = l := by
  unfold jsTrimList
  have hfront : (l ++ ['\n']).dropWhile isJsSpace = l ++ ['\n'] := by
    apply dropWhile_eq_self_of_head
    intro c hc
    cases l with
    | nil => exact absurd rfl hne
    | cons a rest =>
      simp only [List.cons_append, List.head?_cons, Option.some.injEq] at hc
      exact hc ▸ h1 a rfl
  rw [hfront, List.reverse_append]
  rw [show (['\n'] : List Char).reverse ++ l.reverse = '\n' :: l.reverse from rfl]
  rw [List.dropWhile_cons]
  rw [show isJsSpace '\n' = true from rfl]
  simp only [if_true]
  rw [dropWhile_eq_self_of_head _ l.reverse
    (fun c hc => h2 c (by rwa [List.head?_reverse] at hc))]
  exact List.reverse_reverse l

/-! ## Claim C4: add/add vs upsert/upsert against faithful providers -/

theorem convexListVars_storeRun (_cmp : String → String → Int)
    (_wf : String → String → M (List (String × String)) Unit) (pd : String)
    (s : List (String × String)) :
    (convexListVars ⟨none⟩ (convexCtx pd) "development").run s =
      .ok (parseConvexEnvList (serializeConvexStore s)) s := rfl

theorem convexAdd_fresh_run (cmp : String → String → Int)
    (wf : String → String → M (List (String × String)) Unit) (pd : String)
    (s : List (String × String)) (K V : String) (sens : Bool)
    (h1 : parseConvexEnvList (serializeConvexStore s) = s)
    (hK : recordGet s K = none) :
    ((convexAdapter cmp wf ⟨none⟩).add (convexCtx pd) "development" K V sens).run s =
      .ok () (recordSet s K V) := by
  show ((convexListVars ⟨none⟩ (convexCtx pd) "development") >>= fun vars =>
    if recordHasOwn vars K then
      throw ("Env var " ++ K ++ " already exists in " ++ "development" ++
        ". Use `better-env update` or `better-env upsert`.")
    else convexUpsert ⟨none⟩ (convexCtx pd) "development" K V false).run s = _
  rw [run_bind_ok (convexListVars_storeRun cmp wf pd s), h1]
  rw [show recordHasOwn s K = false by rw [recordHasOwn, hK]; rfl]
  rw [if_neg (by simp)]
  rfl

theorem convexAdd_existing_run (cmp : String → String → Int)
    (wf : String → String → M (List (String × String)) Unit) (pd : String)
    (s : List (String × String)) (K V : String) (sens : Bool)
    (h1 : parseConvexEnvList (serializeConvexStore s) = s)
    (hK : (recordGet s K).isSome = true) :
    ((convexAdapter cmp wf ⟨none⟩).add (convexCtx pd) "development" K V sens).run s =
      .error ("Env var " ++ K ++ " already exists in " ++ "development" ++
        ". Use `better-env update` or `better-env upsert`.") s := by
  show ((convexListVars ⟨none⟩ (convexCtx pd) "development") >>= fun vars =>
    if recordHasOwn vars K then
      throw ("Env var " ++ K ++ " already exists in " ++ "development" ++
        ". Use `better-env update` or `better-env upsert`.")
    else convexUpsert ⟨none⟩ (convexCtx pd) "development" K V false).run s = _
  rw [run_bind_ok (convexListVars_storeRun cmp wf pd s), h1]
  rw [show recordHasOwn s K = true from hK]
  rw [if_pos (by simp)]
  exact run_throw _ _

theorem convexUpsert_run (pd : String) (s : List (String × String)) (K V : String)
    (sens : Bool) :
    (convexUpsert ⟨none⟩ (convexCtx pd) "development" K V sens).run s =
      .ok () (recordSet s K V) := rfl

/-- The app-pinned Fly options used by the faithful provider scenario. -/
def flyOpts : FlyAdapterOptions := ⟨none, some "app1", none⟩

theorem flyListKeys_storeRun (jsonParse : String → Option Jsonish)
    (envFlyApp flyTomlApp : Option String) (pd : String) (s keys : List String)
    (hparse : tryParseFlySecretsList jsonParse (flySerializeSecrets s) = some keys) :
    (flyListKeys jsonParse flyOpts envFlyApp flyTomlApp (flyCtx pd)).run s =
      .ok keys s := by
  show ((flyRun flyOpts envFlyApp flyTomlApp (flyCtx pd)
      ["secrets", "list", "--json"]) >>= fun res =>
    if res.exitCode != 0 then
      throw (jsTrim ("Failed to list env vars from Fly.\n" ++ res.stderr))
    else
      match tryParseFlySecretsList jsonParse res.stdout with
      | none => throw "Failed to parse Fly secrets list output."
      | some parsed => pure parsed).run s = _
  rw [run_bind_ok (show (flyRun flyOpts envFlyApp flyTomlApp (flyCtx pd)
      ["secrets", "list", "--json"]).run s =
      .ok ⟨0, flySerializeSecrets s, ""⟩ s from rfl)]
  show (match tryParseFlySecretsList jsonParse (flySerializeSecrets s) with
      | none => (throw "Failed to parse Fly secrets list output." : M (List String) _)
      | some parsed => pure parsed).run s = _
  rw [hparse]
  exact run_pure _ _

theorem flyStoreSetKey_eq (s : List String) (K V : String)
    (hKeq : ∀ c ∈ K.data, c ≠ '=') (hK : s.contains K = false) :
    flyStoreSetKey s (K ++ "=" ++ V) = s ++ [K] := by
  unfold flyStoreSetKey
  have hdata : (K ++ "=" ++ V).data = K.data ++ '=' :: V.data := by
    simp [String.data_append]
  rw [hdata]
  have htake := takeWhile_append_stop (fun c => c != '=') K.data '=' V.data
    (fun x hx => by simpa using hKeq x hx) (by simp)
  rw [htake.1]
  have heta : (⟨K.data⟩ : String) = K := rfl
  rw [heta]
  show (if s.contains K = true then s else s ++ [K]) = s ++ [K]
  rw [hK]
  simp

theorem flyUpsert_storeRun (jsonParse : String → Option Jsonish)
    (envFlyApp flyTomlApp : Option String) (pd : String) (s : List String)
    (env2 K V : String) (sens : Bool) :
    (flyUpsert jsonParse flyOpts envFlyApp flyTomlApp (flyCtx pd) env2 K V sens).run s =
      .ok () (flyStoreSetKey s (K ++ "=" ++ V)) := rfl

theorem flyAdd_fresh_run (jsonParse : String → Option Jsonish)
    (envFlyApp flyTomlApp : Option String) (pd : String) (s : List String)
    (K V : String) (env2 : String) (sens : Bool)
    (hparse : tryParseFlySecretsList jsonParse (flySerializeSecrets s) = some s)
    (hK : s.contains K = false) (hKeq : ∀ c ∈ K.data, c ≠ '=') :
    ((flyAdapter jsonParse envFlyApp flyTomlApp flyOpts).add (flyCtx pd) env2 K V
      sens).run s = .ok () (s ++ [K]) := by
  show ((flyListKeys jsonParse flyOpts envFlyApp flyTomlApp (flyCtx pd)) >>= fun keys =>
    if keys.contains K then
      throw ("Env var " ++ K ++
        " already exists. Use `better-env update` or `better-env upsert`.")
    else flyUpsert jsonParse flyOpts envFlyApp flyTomlApp (flyCtx pd)
      "production" K V false).run s = _
  rw [run_bind_ok (flyListKeys_storeRun jsonParse envFlyApp flyTomlApp pd s s hparse)]
  rw [hK]
  rw [if_neg (by simp)]
  exact (flyUpsert_storeRun jsonParse envFlyApp flyTomlApp pd s "production" K V
    false).trans (by rw [flyStoreSetKey_eq s K V hKeq hK])

theorem flyAdd_existing_run (jsonParse : String → Option Jsonish)
    (envFlyApp flyTomlApp : Option String) (pd : String) (s : List String)
    (K V : String) (env2 : String) (sens : Bool)
    (hparse : tryParseFlySecretsList jsonParse (flySerializeSecrets s) = some s)
    (hK : s.contains K = true) :
    ((flyAdapter jsonParse envFlyApp flyTomlApp flyOpts).add (flyCtx pd) env2 K V
      sens).run s =
      .error ("Env var " ++ K ++
        " already exists. Use `better-env update` or `better-env upsert`.") s := by
  show ((flyListKeys jsonParse flyOpts envFlyApp flyTomlApp (flyCtx pd)) >>= fun keys =>
    if keys.contains K then
      throw ("Env var " ++ K ++
        " already exists. Use `better-env update` or `better-env upsert`.")
    else flyUpsert jsonParse flyOpts envFlyApp flyTomlApp (flyCtx pd)
      "production" K V false).run s = _
  rw [run_bind_ok (flyListKeys_storeRun jsonParse envFlyApp flyTomlApp pd s s hparse)]
  rw [hK]
  rw [if_pos (by simp)]
  exact run_throw _ _

/-! ### Vercel run lemmas and the trailing-newline trim -/

theorem jsTrim_eq_of_data (S T : String) (h : S.data = T.data ++ ['\n'])
    (hne : T.data ≠ [])
    (h1 : ∀ c, T.data.head? = some c → isJsSpace c = false)
    (h2 : ∀ c, T.data.getLast? = some c → isJsSpace c = false) :
    jsTrim S = T := by
  unfold jsTrim
  rw [h, jsTrimList_append_newline T.data hne h1 h2]

theorem getLast?_append_pair (l : List Char) (a b : Char) :
    (l ++ [a, b]).getLast? = some b := by
  rw [List.getLast?_append]
  rfl

theorem head?_append_of_head? (A rest : List Char) (a : Char)
    (hA : A.head? = some a) : (A ++ rest).head? = some a := by
  cases A with
  | nil => exact Option.noConfusion hA
  | cons x xs =>
    rw [List.head?_cons] at hA
    rw [List.cons_append, List.head?_cons]
    exact hA

/-- Trimming the failing `vercel env add` stderr-empty message just strips the
trailing newline. -/
theorem vercelAddFail_msg (K : String) :
    jsTrim ("Failed to add env var " ++ K ++ " (" ++ "production" ++ ").\n" ++ "") =
      "Failed to add env var " ++ K ++ " (" ++ "production" ++ ")." := by
  apply jsTrim_eq_of_data
  · simp only [String.data_append, List.append_assoc]
    rfl
  · simp only [String.data_append]
    apply List.append_ne_nil_of_left_ne_nil
    apply List.append_ne_nil_of_left_ne_nil
    apply List.append_ne_nil_of_left_ne_nil
    apply List.append_ne_nil_of_left_ne_nil
    decide
  · intro c hc
    simp only [String.data_append, List.append_assoc] at hc
    rw [head?_append_of_head? "Failed to add env var ".data
      (K.data ++ (" (".data ++ ("production".data ++ ").".data))) 'F' rfl] at hc
    injection hc with h
    subst h
    rfl
  · intro c hc
    rw [String.data_append, show (")." : String).data = [')', '.'] from rfl,
      getLast?_append_pair] at hc
    injection hc with h
    subst h
    rfl

/-- The plain Vercel options used by the faithful provider scenario. -/
def vOpts : VercelAdapterOptions := ⟨none, none, none⟩

theorem vercelAdd_exec_run (pd : String) (s : List String) (K V env2 : String) :
    (vercelRun vOpts (vercelCtx pd)
      (["env", "add", K, env2] ++ (if (false : Bool) then ["--sensitive"] else []))
      (some (V ++ "\n"))).run s =
      (if s.contains K then (pure ⟨1, "", ""⟩ : M (List String) ExecResult)
       else do
         set (s ++ [K])
         pure ⟨0, "", ""⟩).run s := rfl

theorem vercelAdd_fresh_run (pd : String) (s : List String) (K V env2 : String)
    (hK : s.contains K = false) :
    ((vercelAdapter vOpts).add (vercelCtx pd) env2 K V false).run s =
      .ok () (s ++ [K]) := by
  show ((vercelRun vOpts (vercelCtx pd)
      (["env", "add", K, env2] ++ (if (false : Bool) then ["--sensitive"] else []))
      (some (V ++ "\n"))) >>= fun res =>
    if res.exitCode != 0 then
      throw (jsTrim ("Failed to add env var " ++ K ++ " (" ++ env2 ++ ").\n" ++
        res.stderr))
    else pure ()).run s = _
  have hexec : (vercelRun vOpts (vercelCtx pd)
      (["env", "add", K, env2] ++ (if (false : Bool) then ["--sensitive"] else []))
      (some (V ++ "\n"))).run s = .ok ⟨0, "", ""⟩ (s ++ [K]) := by
    rw [vercelAdd_exec_run, hK]
    rw [if_neg (by simp)]
    rfl
  rw [run_bind_ok hexec]
  rfl

theorem vercelAdd_existing_run (pd : String) (s : List String) (K V env2 : String)
    (hK : s.contains K = true) :
    ((vercelAdapter vOpts).add (vercelCtx pd) env2 K V false).run s =
      .error (jsTrim ("Failed to add env var " ++ K ++ " (" ++ env2 ++ ").\n" ++ "")) s := by
  show ((vercelRun vOpts (vercelCtx pd)
      (["env", "add", K, env2] ++ (if (false : Bool) then ["--sensitive"] else []))
      (some (V ++ "\n"))) >>= fun res =>
    if res.exitCode != 0 then
      throw (jsTrim ("Failed to add env var " ++ K ++ " (" ++ env2 ++ ").\n" ++
        res.stderr))
    else pure ()).run s = _
  have hexec : (vercelRun vOpts (vercelCtx pd)
      (["env", "add", K, env2] ++ (if (false : Bool) then ["--sensitive"] else []))
      (some (V ++ "\n"))).run s = .ok ⟨1, "", ""⟩ s := by
    rw [vercelAdd_exec_run, hK]
    rw [if_pos rfl]
    rfl
  rw [run_bind_ok hexec]
  rfl

theorem vercelUpsert_run (pd : String) (s : List String) (K V env2 : String) :
    (vercelUpsert vOpts (vercelCtx pd) env2 K V false).run s =
      .ok () (if s.contains K then s else s ++ [K]) := rfl

theorem contains_append_singleton (s : List String) (K : String) :
    (s ++ [K]).contains K = true := by
  induction s with
  | nil => simp
  | cons a rest ih =>
    rw [List.cons_append, List.contains_cons, ih]
    simp

/-- Claim C4, counterexample: on the Vercel adapter `add` of a fresh key
succeeds, but a second `add` of the same key fails with the provider-CLI
failure message "Failed to add env var B (production)." which neither states
that the key already exists nor suggests update/upsert. -/
theorem vercelSecondAddLacksPreconditionMessage :
    ((vercelAdapter vOpts).add (vercelCtx "/p") "production" "B" "1" false).run [] =
      .ok () ["B"] ∧
    ((vercelAdapter vOpts).add (vercelCtx "/p") "production" "B" "2" false).run ["B"] =
      .error "Failed to add env var B (production)." ["B"] ∧
    ¬ List.IsInfix "already exists".data "Failed to add env var B (production).".data ∧
    ¬ List.IsInfix "upsert".data "Failed to add env var B (production).".data :=
  ⟨rfl, rfl, by decide, by decide⟩

/-- Claim C4, amended: against a faithful provider model taken as ground
truth, `add` followed by `add` on the same key fails the second call — on the
convex and fly adapters with the precondition-violation message stating that
the key already exists and suggesting `better-env update`/`better-env
upsert`, but on the vercel adapter (which issues the CLI `env add` directly,
without an existence pre-check) with the provider failure message "Failed to
add env var KEY (ENV)." that does not state existence; `upsert` followed by
`upsert` on the same key never fails on any of the three. -/
theorem adapterAddAddVsUpsertUpsert :
    (∀ (cmp : String → String → Int)
      (wf : String → String → M (List (String × String)) Unit)
      (pd : String) (s : List (String × String)) (K V1 V2 : String),
      parseConvexEnvList (serializeConvexStore s) = s →
      parseConvexEnvList (serializeConvexStore (recordSet s K V1)) = recordSet s K V1 →
      recordGet s K = none →
      (((convexAdapter cmp wf ⟨none⟩).add (convexCtx pd) "development" K V1 false) >>=
        fun _ =>
          (convexAdapter cmp wf ⟨none⟩).add (convexCtx pd) "development" K V2 false).run
          s =
        .error ("Env var " ++ K ++ " already exists in " ++ "development" ++
          ". Use `better-env update` or `better-env upsert`.") (recordSet s K V1)) ∧
    (∀ (cmp : String → String → Int)
      (wf : String → String → M (List (String × String)) Unit)
      (pd : String) (s : List (String × String)) (K V1 V2 : String),
      (((convexAdapter cmp wf ⟨none⟩).upsert (convexCtx pd) "development" K V1 false) >>=
        fun _ =>
          (convexAdapter cmp wf ⟨none⟩).upsert (convexCtx pd) "development" K V2
            false).run s =
        .ok () (recordSet (recordSet s K V1) K V2)) ∧
    (∀ (jsonParse : String → Option Jsonish) (envFlyApp flyTomlApp : Option String)
      (pd : String) (s : List String) (K V1 V2 : String),
      tryParseFlySecretsList jsonParse (flySerializeSecrets s) = some s →
      tryParseFlySecretsList jsonParse (flySerializeSecrets (s ++ [K])) =
        some (s ++ [K]) →
      s.contains K = false →
      (∀ c ∈ K.data, c ≠ '=') →
      (((flyAdapter jsonParse envFlyApp flyTomlApp flyOpts).add (flyCtx pd) "production"
          K V1 false) >>= fun _ =>
        (flyAdapter jsonParse envFlyApp flyTomlApp flyOpts).add (flyCtx pd) "production"
          K V2 false).run s =
        .error ("Env var " ++ K ++
          " already exists. Use `better-env update` or `better-env upsert`.")
          (s ++ [K])) ∧
    (∀ (jsonParse : String → Option Jsonish) (envFlyApp flyTomlApp : Option String)
      (pd : String) (s : List String) (K V1 V2 : String),
      (((flyAdapter jsonParse envFlyApp flyTomlApp flyOpts).upsert (flyCtx pd)
          "production" K V1 false) >>= fun _ =>
        (flyAdapter jsonParse envFlyApp flyTomlApp flyOpts).upsert (flyCtx pd)
          "production" K V2 false).run s =
        .ok () (flyStoreSetKey (flyStoreSetKey s (K ++ "=" ++ V1)) (K ++ "=" ++ V2))) ∧
    (∀ (pd : String) (s : List String) (K V1 V2 : String),
      s.contains K = false →
      (((vercelAdapter vOpts).add (vercelCtx pd) "production" K V1 false) >>= fun _ =>
        (vercelAdapter vOpts).add (vercelCtx pd) "production" K V2 false).run s =
        .error ("Failed to add env var " ++ K ++ " (" ++ "production" ++ ").")
          (s ++ [K])) ∧
    (∀ (pd : String) (s : List String) (K V1 V2 : String),
      s.contains K = false →
      (((vercelAdapter vOpts).upsert (vercelCtx pd) "production" K V1 false) >>=
        fun _ =>
          (vercelAdapter vOpts).upsert (vercelCtx pd) "production" K V2 false).run s =
        .ok () (s ++ [K])) := by
  refine ⟨?_, ?_, ?_, ?_, ?_, ?_⟩
  · intro cmp wf pd s K V1 V2 h1 h2 hK
    rw [run_bind_ok (convexAdd_fresh_run cmp wf pd s K V1 false h1 hK)]
    exact convexAdd_existing_run cmp wf pd (recordSet s K V1) K V2 false h2
      (by rw [recordGet_recordSet_self]; rfl)
  · intro cmp wf pd s K V1 V2
    rfl
  · intro jsonParse envFlyApp flyTomlApp pd s K V1 V2 hp1 hp2 hK hKeq
    rw [run_bind_ok
      (flyAdd_fresh_run jsonParse envFlyApp flyTomlApp pd s K V1 "production" false
        hp1 hK hKeq)]
    exact flyAdd_existing_run jsonParse envFlyApp flyTomlApp pd (s ++ [K]) K V2
      "production" false hp2 (contains_append_singleton s K)
  · intro jsonParse envFlyApp flyTomlApp pd s K V1 V2
    rfl
  · intro pd s K V1 V2 hK
    rw [run_bind_ok (vercelAdd_fresh_run pd s K V1 "production" hK)]
    rw [vercelAdd_existing_run pd (s ++ [K]) K V2 "production"
      (contains_append_singleton s K)]
    rw [vercelAddFail_msg K]
  · intro pd s K V1 V2 hK
    have h1 : ((vercelAdapter vOpts).upsert (vercelCtx pd) "production" K V1
        false).run s = .ok () (s ++ [K]) := by
      show (vercelUpsert vOpts (vercelCtx pd) "production" K V1 false).run s = _
      rw [vercelUpsert_run, hK]
      rw [if_neg (by simp)]
    rw [run_bind_ok h1]
    show (vercelUpsert vOpts (vercelCtx pd) "production" K V2 false).run (s ++ [K]) = _
    rw [vercelUpsert_run, contains_append_singleton]
    rw [if_pos rfl]

/-- The constant collation used to instantiate the convex scenario. -/
def cmp0 : String → String → Int := fun _ _ => 0

/-- The no-op file write used to instantiate the convex scenario. -/
def wf0 : String → String → M (List (String × String)) Unit := fun _ _ => pure ()

/-- A concrete `JSON.parse` oracle covering the Fly secret stores `[]` and
`["A"]`. -/
def jp0 : String → Option Jsonish := fun str =>
  if str = flySerializeSecrets [] then some (flyJsonOfNames [])
  else if str = flySerializeSecrets ["A"] then some (flyJsonOfNames ["A"])
  else none

theorem adapterAddAddVsUpsertUpsert_witness :
    ((((convexAdapter cmp0 wf0 ⟨none⟩).add (convexCtx "/p") "development" "A" "1"
        false) >>= fun _ =>
      (convexAdapter cmp0 wf0 ⟨none⟩).add (convexCtx "/p") "development" "A" "2"
        false).run [] =
      .error ("Env var " ++ "A" ++ " already exists in " ++ "development" ++
        ". Use `better-env update` or `better-env upsert`.")
        (recordSet [] "A" "1")) ∧
    ((((convexAdapter cmp0 wf0 ⟨none⟩).upsert (convexCtx "/p") "development" "A" "1"
        false) >>= fun _ =>
      (convexAdapter cmp0 wf0 ⟨none⟩).upsert (convexCtx "/p") "development" "A" "2"
        false).run [] =
      .ok () (recordSet (recordSet [] "A" "1") "A" "2")) ∧
    ((((flyAdapter jp0 none none flyOpts).add (flyCtx "/p") "production" "A" "1"
        false) >>= fun _ =>
      (flyAdapter jp0 none none flyOpts).add (flyCtx "/p") "production" "A" "2"
        false).run [] =
      .error ("Env var " ++ "A" ++
        " already exists. Use `better-env update` or `better-env upsert`.")
        ([] ++ ["A"])) ∧
    ((((flyAdapter jp0 none none flyOpts).upsert (flyCtx "/p") "production" "A" "1"
        false) >>= fun _ =>
      (flyAdapter jp0 none none flyOpts).upsert (flyCtx "/p") "production" "A" "2"
        false).run [] =
      .ok () (flyStoreSetKey (flyStoreSetKey [] ("A" ++ "=" ++ "1"))
        ("A" ++ "=" ++ "2"))) ∧
    ((((vercelAdapter vOpts).add (vercelCtx "/p") "production" "A" "1" false) >>=
        fun _ =>
      (vercelAdapter vOpts).add (vercelCtx "/p") "production" "A" "2" false).run [] =
      .error ("Failed to add env var " ++ "A" ++ " (" ++ "production" ++ ").")
        ([] ++ ["A"])) ∧
    ((((vercelAdapter vOpts).upsert (vercelCtx "/p") "production" "A" "1" false) >>=
        fun _ =>
      (vercelAdapter vOpts).upsert (vercelCtx "/p") "production" "A" "2" false).run
        [] =
      .ok () ([] ++ ["A"])) :=
  ⟨adapterAddAddVsUpsertUpsert.1 cmp0 wf0 "/p" [] "A" "1" "2" (by decide) (by decide)
      rfl,
    adapterAddAddVsUpsertUpsert.2.1 cmp0 wf0 "/p" [] "A" "1" "2",
    adapterAddAddVsUpsertUpsert.2.2.1 jp0 none none "/p" [] "A" "1" "2" (by decide)
      (by decide) (by decide) (by decide),
    adapterAddAddVsUpsertUpsert.2.2.2.1 jp0 none none "/p" [] "A" "1" "2",
    adapterAddAddVsUpsertUpsert.2.2.2.2.1 "/p" [] "A" "1" "2" (by decide),
    adapterAddAddVsUpsertUpsert.2.2.2.2.2 "/p" [] "A" "1" "2" (by decide)⟩

/-! ## Claim C5: the pull-written file re-parsed -/

/-- `other` with neither a leading nor a trailing JS-whitespace character. -/
def hasNoEdgeSpace (v : String) : Bool :=
  (match v.data.head? with
   | some c => !isJsSpace c
   | none => true) &&
  (match v.data.getLast? with
   | some c => !isJsSpace c
   | none => true)

/-- The quote-stripping guard of `normalizeValue`: wrapped in a matching pair
of double or single quotes. -/
def isQuoteWrapped (v : String) : Bool :=
  (v.data.head? == some '"' && v.data.getLast? == some '"') ||
    (v.data.head? == some singleQuoteChar && v.data.getLast? == some singleQuoteChar)

/-- `List.intercalate` on character lists, in direct-recursion form. -/
def charIntercalate (sep : List Char) : List (List Char) → List Char
  | [] => []
  | [x] => x
  | x :: y :: xs => x ++ sep ++ charIntercalate sep (y :: xs)

theorem charIntercalate_eq_flatten (sep x : List Char) (xs : List (List Char)) :
    charIntercalate sep (x :: xs) = x ++ (xs.map (fun y => sep ++ y)).flatten := by
  induction xs generalizing x with
  | nil => simp [charIntercalate]
  | cons y ys ih =>
    rw [show charIntercalate sep (x :: y :: ys) = x ++ sep ++ charIntercalate sep (y :: ys)
      from rfl]
    rw [ih y]
    simp [List.append_assoc]

theorem intercalate_go_data (s : String) (as : List String) : ∀ acc : String,
    (String.intercalate.go acc s as).data =
      acc.data ++ ((as.map (fun a => s.data ++ a.data)).flatten) := by
  induction as with
  | nil =>
    intro acc
    simp [show ∀ a : String, String.intercalate.go a s [] = a from fun _ => rfl]
  | cons a as ih =>
    intro acc
    rw [show String.intercalate.go acc s (a :: as) =
      String.intercalate.go (acc ++ s ++ a) s as from rfl]
    rw [ih]
    simp [String.data_append, List.append_assoc]

theorem intercalate_data (s : String) (xs : List String) :
    (String.intercalate s xs).data = charIntercalate s.data (xs.map String.data) := by
  cases xs with
  | nil => rfl
  | cons a as =>
    rw [show String.intercalate s (a :: as) = String.intercalate.go a s as from rfl]
    rw [intercalate_go_data s as a]
    rw [List.map_cons, charIntercalate_eq_flatten]
    rw [List.map_map]
    rfl

theorem normNL_cons_ne (c : Char) (rest : List Char) (hc : c ≠ '\r') :
    normNL (c :: rest) = c :: normNL rest := by
  nth_rewrite 1 [normNL.eq_def]
  split
  · rename_i heq
    exact absurd heq (by simp)
  · rename_i heq
    injection heq with h1 h2
    exact absurd h1 hc
  · rename_i heq
    injection heq with h1 h2
    exact absurd h1 hc
  · rename_i heq
    injection heq with h1 h2
    rw [h1, h2]

theorem normNL_eq_self (l : List Char) (h : '\r' ∉ l) : normNL l = l := by
  induction l with
  | nil => rfl
  | cons c rest ih =>
    rw [normNL_cons_ne c rest (fun hh => h (hh ▸ List.mem_cons_self c rest)),
      ih (fun hh => h (List.mem_cons_of_mem c hh))]

theorem splitOnChar_ne_nil (sep : Char) (l : List Char) : splitOnChar sep l ≠ [] := by
  cases l with
  | nil => simp [splitOnChar]
  | cons c rest =>
    simp only [splitOnChar]
    by_cases hc : c = sep
    · simp [hc]
    · simp only [hc, if_false]
      cases hsp : splitOnChar sep rest <;> simp

theorem splitOnChar_append (sep : Char) (x r : List Char) (hx : sep ∉ x) :
    splitOnChar sep (x ++ sep :: r) = x :: splitOnChar sep r := by
  induction x with
  | nil => simp [splitOnChar]
  | cons c t ih =>
    have hc : c ≠ sep := fun hh => hx (hh ▸ List.mem_cons_self c t)
    have ht : sep ∉ t := fun hh => hx (List.mem_cons_of_mem c hh)
    rw [List.cons_append]
    simp only [splitOnChar]
    rw [if_neg hc]
    rw [ih ht]

theorem splitOnChar_of_not_mem (sep : Char) (x : List Char) (hx : sep ∉ x) :
    splitOnChar sep x = [x] := by
  induction x with
  | nil => rfl
  | cons c t ih =>
    have hc : c ≠ sep := fun hh => hx (hh ▸ List.mem_cons_self c t)
    have ht : sep ∉ t := fun hh => hx (List.mem_cons_of_mem c hh)
    simp only [splitOnChar]
    rw [if_neg hc, ih ht]

theorem splitOnChar_charIntercalate (lines : List (List Char)) (hne : lines ≠ [])
    (hns : ∀ l ∈ lines, '\n' ∉ l) :
    splitOnChar '\n' (charIntercalate ['\n'] lines ++ ['\n']) = lines ++ [[]] := by
  induction lines with
  | nil => exact absurd rfl hne
  | cons x xs ih =>
    cases xs with
    | nil =>
      rw [show charIntercalate ['\n'] [x] = x from rfl]
      rw [show (x ++ ['\n'] : List Char) = x ++ '\n' :: [] from rfl]
      rw [splitOnChar_append '\n' x [] (hns x (List.mem_cons_self x []))]
      rfl
    | cons y ys =>
      rw [show charIntercalate ['\n'] (x :: y :: ys) =
        x ++ ['\n'] ++ charIntercalate ['\n'] (y :: ys) from rfl]
      rw [show ((x ++ ['\n']) ++ charIntercalate ['\n'] (y :: ys)) ++ ['\n'] =
          x ++ '\n' :: (charIntercalate ['\n'] (y :: ys) ++ ['\n']) from by
        simp [List.append_assoc]]
      rw [splitOnChar_append '\n' x _ (hns x (List.mem_cons_self x _))]
      rw [ih (by simp) (fun l hl => hns l (List.mem_cons_of_mem x hl))]
      rfl

theorem isEnvVarName_spec (k : String) (h : isEnvVarName k = true) :
    ∃ c rest, k.data = c :: rest ∧ (isAsciiAlpha c || c == '_') = true ∧
      ∀ d ∈ rest, (isAsciiAlpha d || isAsciiDigit d || d == '_') = true := by
  unfold isEnvVarName at h
  cases hkd : k.data with
  | nil => rw [hkd] at h; simp at h
  | cons c rest =>
    rw [hkd] at h
    dsimp only at h
    rw [Bool.and_eq_true] at h
    refine ⟨c, rest, rfl, h.1, ?_⟩
    intro d hd
    have h2 := h.2
    rw [List.all_eq_true] at h2
    exact h2 d hd

theorem isEnvVarName_word (k : String) (h : isEnvVarName k = true) :
    ∀ c ∈ k.data, isWordChar c = true := by
  obtain ⟨c0, rest, hkd, h1, h2⟩ := isEnvVarName_spec k h
  rw [hkd]
  intro c hc
  rcases List.mem_cons.mp hc with hc | hc
  · subst hc
    rcases Bool.or_eq_true_iff.mp h1 with ha | ha <;> simp [isWordChar, ha]
  · simpa [isWordChar] using h2 c hc

theorem not_space_of_bounds (c : Char) (h1 : '0' ≤ c) (h2 : c ≤ 'z') :
    isJsSpace c = false := by
  cases hs : isJsSpace c
  · rfl
  · exfalso
    have hd : c = ' ' ∨ c = '\t' ∨ c = '\n' ∨ c = '\r' ∨ c = '\x0b' ∨ c = '\x0c' ∨
        c = '\u00A0' ∨ c = '\u1680' ∨ ('\u2000' ≤ c ∧ c ≤ '\u200A') ∨
        c = '\u2028' ∨ c = '\u2029' ∨ c = '\u202F' ∨ c = '\u205F' ∨
        c = '\u3000' ∨ c = '\uFEFF' := by
      simpa [isJsSpace, or_assoc] using hs
    rcases hd with h | h | h | h | h | h | h | h | ⟨hr1, _⟩ | h | h | h | h | h | h
    · subst h; exact absurd h1 (by decide)
    · subst h; exact absurd h1 (by decide)
    · subst h; exact absurd h1 (by decide)
    · subst h; exact absurd h1 (by decide)
    · subst h; exact absurd h1 (by decide)
    · subst h; exact absurd h1 (by decide)
    · subst h; exact absurd h2 (by decide)
    · subst h; exact absurd h2 (by decide)
    · exact absurd (le_trans hr1 h2) (by decide)
    · subst h; exact absurd h2 (by decide)
    · subst h; exact absurd h2 (by decide)
    · subst h; exact absurd h2 (by decide)
    · subst h; exact absurd h2 (by decide)
    · subst h; exact absurd h2 (by decide)
    · subst h; exact absurd h2 (by decide)

theorem word_not_space (c : Char) (h : isWordChar c = true) : isJsSpace c = false := by
  have hd : ('A' ≤ c ∧ c ≤ 'Z') ∨ ('a' ≤ c ∧ c ≤ 'z') ∨ ('0' ≤ c ∧ c ≤ '9') ∨
      c = '_' := by
    simpa [isWordChar, isAsciiAlpha, isAsciiDigit, or_assoc] using h
  rcases hd with ⟨h1, h2⟩ | ⟨h1, h2⟩ | ⟨h1, h2⟩ | h1
  · exact not_space_of_bounds c (le_trans (by decide) h1) (le_trans h2 (by decide))
  · exact not_space_of_bounds c (le_trans (by decide) h1) h2
  · exact not_space_of_bounds c h1 (le_trans h2 (by decide))
  · subst h1; decide

theorem take_len_append_cons (l : List Char) (a : Char) (r : List Char) :
    (l ++ a :: r).take (l.length + 1) = l ++ [a] := by
  induction l with
  | nil => rfl
  | cons c t ih =>
    rw [List.cons_append]
    simp only [List.length_cons, List.take_succ_cons]
    rw [ih]
    rfl

theorem takeWhile_eq_self_of_all {α : Type} (p : α → Bool) (l : List α)
    (h : ∀ c ∈ l, p c = true) : l.takeWhile p = l := by
  induction l with
  | nil => rfl
  | cons a t ih =>
    rw [List.takeWhile_cons, h a (List.mem_cons_self a t)]
    rw [if_pos rfl]
    rw [ih (fun c hc => h c (List.mem_cons_of_mem a hc))]

theorem dotenvCaptureLen_hit (r : List Char) (i : Nat)
    (h : acceptDotenvRest (r.drop i) = true) : dotenvCaptureLen r i = some i := by
  cases i with
  | zero =>
    rw [show dotenvCaptureLen r 0 =
      (if acceptDotenvRest r then some 0 else none) from rfl]
    rw [show acceptDotenvRest r = true from h]
    rw [if_pos rfl]
  | succ j =>
    rw [show dotenvCaptureLen r (j + 1) =
      (if acceptDotenvRest (r.drop (j + 1)) then some (j + 1) else dotenvCaptureLen r j)
      from rfl]
    rw [h]
    rw [if_pos rfl]

/-- On a LineTerminator-free remainder the greedy capture takes everything. -/
theorem dotenvLazyValue_no_term (v : List Char)
    (hterm : ∀ c ∈ v, isJsLineTerminator c = false) : dotenvLazyValue v = some v := by
  cases v with
  | nil => rfl
  | cons c rest =>
    have htw : (c :: rest).takeWhile (fun x => !isJsLineTerminator x) = c :: rest :=
      takeWhile_eq_self_of_all _ _ (fun x hx => by rw [hterm x hx]; rfl)
    have hcap : dotenvCaptureLen (c :: rest)
        (((c :: rest).takeWhile (fun x => !isJsLineTerminator x)).length) =
        some (c :: rest).length := by
      rw [htw]
      exact dotenvCaptureLen_hit (c :: rest) (c :: rest).length
        (by rw [List.drop_length]; rfl)
    rw [show dotenvLazyValue (c :: rest) =
      (match dotenvCaptureLen (c :: rest)
          (((c :: rest).takeWhile (fun x => !isJsLineTerminator x)).length) with
        | some i => some ((c :: rest).take i)
        | none => if isJsSpace c then dotenvLazyValue rest else none) from rfl]
    rw [hcap]
    dsimp only
    rw [List.take_length]

theorem dotenvCoreMatch_keyval (k : String) (v : List Char) (hne : k.data ≠ [])
    (hkchar : ∀ c ∈ k.data, isDotenvKeyChar c = true)
    (hterm : ∀ c ∈ v, isJsLineTerminator c = false) :
    dotenvCoreMatch (k.data ++ '=' :: v) = some (k, v) := by
  have ht := takeWhile_append_stop isDotenvKeyChar k.data '=' v hkchar (by decide)
  unfold dotenvCoreMatch
  dsimp only
  rw [ht.1, ht.2]
  have hie : k.data.isEmpty = false := by
    cases hkd : k.data with
    | nil => exact absurd hkd hne
    | cons a t => rfl
  rw [hie]
  rw [if_neg (by simp)]
  rw [show dotenvSeparatorSplit ('=' :: v) = some v from rfl]
  dsimp only
  rw [dotenvLazyValue_no_term v hterm]

theorem matchDotenvLine_keyval (k : String) (v : List Char)
    (hk : isEnvVarName k = true)
    (hterm : ∀ c ∈ v, isJsLineTerminator c = false) :
    matchDotenvLine (k.data ++ '=' :: v) = some (k, v) := by
  have hword := isEnvVarName_word k hk
  obtain ⟨c0, rest, hkd, _, _⟩ := isEnvVarName_spec k hk
  have hne : k.data ≠ [] := by rw [hkd]; simp
  have hkchar : ∀ c ∈ k.data, isDotenvKeyChar c = true := fun c hc => by
    simp [isDotenvKeyChar, hword c hc]
  have hdw : (k.data ++ '=' :: v).dropWhile isJsSpace = k.data ++ '=' :: v := by
    apply dropWhile_eq_self_of_head
    intro c hc
    rw [hkd, List.cons_append, List.head?_cons] at hc
    injection hc with hc2
    subst hc2
    exact word_not_space c0 (hword c0 (by rw [hkd]; exact List.mem_cons_self _ _))
  unfold matchDotenvLine
  dsimp only
  rw [hdw]
  cases hpre : "export".data.isPrefixOf (k.data ++ '=' :: v) with
  | false =>
    rw [if_neg (by simp)]
    exact dotenvCoreMatch_keyval k v hne hkchar hterm
  | true =>
    rw [if_pos rfl]
    have hafter : ((k.data ++ '=' :: v).drop 6).head?.any isJsSpace = false := by
      rcases Nat.lt_or_ge k.data.length 6 with hlt | hge
      · exfalso
        have hpre2 : ("export".data : List Char) <+: (k.data ++ '=' :: v) :=
          List.isPrefixOf_iff_prefix.mp hpre
        have htake : ("export".data : List Char) = (k.data ++ '=' :: v).take 6 := by
          have h0 := List.prefix_iff_eq_take.mp hpre2
          rwa [show ("export".data : List Char).length = 6 from rfl] at h0
        have hlen1 : k.data.length + 1 ≤ 6 := hlt
        have htk : (k.data ++ '=' :: v).take (k.data.length + 1) = k.data ++ ['='] :=
          take_len_append_cons k.data '=' v
        have hsub : (k.data ++ '=' :: v).take (k.data.length + 1) ⊆
            (k.data ++ '=' :: v).take 6 := by
          rw [show (k.data ++ '=' :: v).take (k.data.length + 1) =
              ((k.data ++ '=' :: v).take 6).take (k.data.length + 1) from by
            rw [List.take_take, Nat.min_eq_left hlen1]]
          exact (List.take_prefix _ _).subset
        have hmem : '=' ∈ (k.data ++ '=' :: v).take 6 :=
          hsub (by rw [htk]; exact List.mem_append_right _ (by simp))
        rw [← htake] at hmem
        exact absurd hmem (by decide)
      · rw [List.drop_append_of_le_length hge]
        cases hd6 : k.data.drop 6 with
        | nil => rfl
        | cons d t =>
          have hd : d ∈ k.data :=
            List.mem_of_mem_drop (by rw [hd6]; exact List.mem_cons_self d t)
          rw [List.cons_append, List.head?_cons]
          exact word_not_space d (hword d hd)
    rw [hafter]
    rw [if_neg (by simp)]
    exact dotenvCoreMatch_keyval k v hne hkchar hterm

theorem normalizeValue_eq_self (v : String) (hq : isQuoteWrapped v = false) :
    normalizeValue v = v := by
  obtain ⟨d⟩ := v
  unfold normalizeValue
  dsimp only
  by_cases hlen : (String.mk d).length = 0
  · rw [if_pos hlen]
    have hd : d = [] := List.length_eq_zero.mp hlen
    rw [hd]
  · rw [if_neg hlen]
    rw [show (d.head? == some '"' && d.getLast? == some '"' ||
        (d.head? == some singleQuoteChar && d.getLast? == some singleQuoteChar)) = false
      from hq]
    rw [if_neg (by simp)]

theorem dotenvAcceptLine_keyval (k v : String) (hk : isEnvVarName k = true)
    (hterm : ∀ c ∈ v.data, isJsLineTerminator c = false)
    (hes : hasNoEdgeSpace v = true) (hq : isQuoteWrapped v = false) :
    dotenvAcceptLine (k.data ++ '=' :: v.data) = some (k, v) := by
  unfold hasNoEdgeSpace at hes
  rw [Bool.and_eq_true] at hes
  have hv1 : ∀ c, v.data.head? = some c → isJsSpace c = false := by
    intro c hc
    have h1 := hes.1
    rw [hc] at h1
    simpa using h1
  have hv2 : ∀ c, v.data.getLast? = some c → isJsSpace c = false := by
    intro c hc
    have h1 := hes.2
    rw [hc] at h1
    simpa using h1
  have hword := isEnvVarName_word k hk
  obtain ⟨c0, rest, hkd, _, _⟩ := isEnvVarName_spec k hk
  have hhead : ∀ c, (k.data ++ '=' :: v.data).head? = some c → isJsSpace c = false := by
    intro c hc
    rw [hkd, List.cons_append, List.head?_cons] at hc
    injection hc with hc2
    subst hc2
    exact word_not_space c0 (hword c0 (by rw [hkd]; exact List.mem_cons_self _ _))
  have hlast : ∀ c, (k.data ++ '=' :: v.data).getLast? = some c → isJsSpace c = false := by
    intro c hc
    rw [List.getLast?_append] at hc
    cases hvd : v.data with
    | nil =>
      rw [hvd] at hc
      rw [show ((('=' :: ([] : List Char)).getLast?).or (k.data.getLast?)) = some '='
        from rfl] at hc
      injection hc with hc2
      subst hc2
      decide
    | cons b t =>
      rw [hvd] at hc
      rw [List.getLast?_cons_cons] at hc
      cases hg : (b :: t).getLast? with
      | none => exact absurd hg (by simp)
      | some d =>
        rw [hg] at hc
        rw [show (some d).or (k.data.getLast?) = some d from rfl] at hc
        injection hc with hc2
        subst hc2
        exact hv2 d (by rw [hvd]; exact hg)
  have hhash : ((k.data ++ '=' :: v.data).head? == some '#') = false := by
    rw [hkd, List.cons_append, List.head?_cons]
    have hcw : isWordChar c0 = true := hword c0 (by rw [hkd]; exact List.mem_cons_self _ _)
    simp only [beq_eq_false_iff_ne, ne_eq, Option.some.injEq]
    intro h
    subst h
    exact absurd hcw (by decide)
  have htrim : jsTrimList (k.data ++ '=' :: v.data) = k.data ++ '=' :: v.data :=
    jsTrimList_eq_self _ hhead hlast
  unfold dotenvAcceptLine
  dsimp only
  rw [htrim]
  have hie2 : (k.data ++ '=' :: v.data).isEmpty = false := by
    rw [hkd, List.cons_append]
    rfl
  rw [hie2]
  rw [if_neg (by simp)]
  rw [hhash]
  rw [if_neg (by simp)]
  rw [matchDotenvLine_keyval k v.data hk hterm]
  show some (k, normalizeValue ⟨jsTrimList v.data⟩) = some (k, v)
  rw [jsTrimList_eq_self v.data hv1 hv2]
  rw [show (⟨v.data⟩ : String) = v from rfl]
  rw [normalizeValue_eq_self v hq]

theorem filterMap_of_forall_some {α β : Type} (f : α → Option β) (g : α → β)
    (l : List α) (h : ∀ x ∈ l, f x = some (g x)) : l.filterMap f = l.map g := by
  induction l with
  | nil => rfl
  | cons a t ih =>
    rw [List.filterMap_cons, h a (List.mem_cons_self a t)]
    show g a :: t.filterMap f = g a :: t.map g
    rw [ih (fun x hx => h x (List.mem_cons_of_mem a hx))]

theorem mem_charIntercalate {c : Char} (sep : List Char) (ls : List (List Char))
    (hc : c ∈ charIntercalate sep ls) : c ∈ sep ∨ ∃ l ∈ ls, c ∈ l := by
  induction ls with
  | nil => simp [charIntercalate] at hc
  | cons x xs ih =>
    cases xs with
    | nil =>
      rw [show charIntercalate sep [x] = x from rfl] at hc
      exact Or.inr ⟨x, by simp, hc⟩
    | cons y ys =>
      rw [show charIntercalate sep (x :: y :: ys) =
        x ++ sep ++ charIntercalate sep (y :: ys) from rfl] at hc
      rcases List.mem_append.mp hc with h1 | h1
      · rcases List.mem_append.mp h1 with h2 | h2
        · exact Or.inr ⟨x, by simp, h2⟩
        · exact Or.inl h2
      · rcases ih h1 with h2 | h2
        · exact Or.inl h2
        · obtain ⟨l, hl, hcl⟩ := h2
          exact Or.inr ⟨l, List.mem_cons_of_mem x hl, hcl⟩

theorem line_no_char (K V : String) (c : Char)
    (hkw : ∀ d ∈ K.data, isWordChar d = true) (hcw : isWordChar c = false)
    (hceq : c ≠ '=') (hcv : c ∉ V.data) : c ∉ (K ++ "=" ++ V).data := by
  rw [show (K ++ "=" ++ V).data = K.data ++ '=' :: V.data from by
    simp [String.data_append]]
  intro hmem
  rcases List.mem_append.mp hmem with h1 | h1
  · rw [hkw c h1] at hcw
    exact Bool.noConfusion hcw
  · rcases List.mem_cons.mp h1 with h2 | h2
    · exact hceq h2
    · exact hcv h2

theorem dotenvLineEntries_envFileContent (cmp : String → String → Int)
    (vars : List (String × String)) (hvars : vars ≠ [])
    (hk : ∀ kv ∈ vars, isEnvVarName kv.1 = true)
    (hv : ∀ kv ∈ vars, (∀ c ∈ kv.2.data, isJsLineTerminator c = false) ∧
      hasNoEdgeSpace kv.2 = true ∧ isQuoteWrapped kv.2 = false) :
    dotenvLineEntries (envFileContent cmp vars) =
      List.insertionSort (fun a b => cmp a.1 b.1 ≤ 0) (jsObjectEntries vars) := by
  cases hsort : List.insertionSort (fun a b => cmp a.1 b.1 ≤ 0) (jsObjectEntries vars) with
  | nil =>
    exfalso
    have hperm : List.Perm ([] : List (String × String)) vars := by
      rw [← hsort]
      exact (List.perm_insertionSort _ _).trans (jsObjectEntries_perm vars)
    exact hvars (hperm.symm.eq_nil)
  | cons p0 ptail =>
    have hperm : List.Perm (p0 :: ptail) vars := by
      rw [← hsort]
      exact (List.perm_insertionSort _ _).trans (jsObjectEntries_perm vars)
    have hks : ∀ kv ∈ (p0 :: ptail), isEnvVarName kv.1 = true :=
      fun kv hkv => hk kv (hperm.subset hkv)
    have hvs : ∀ kv ∈ (p0 :: ptail), (∀ c ∈ kv.2.data, isJsLineTerminator c = false) ∧
        hasNoEdgeSpace kv.2 = true ∧ isQuoteWrapped kv.2 = false :=
      fun kv hkv => hv kv (hperm.subset hkv)
    have hpos : 0 <
        (String.intercalate "\n" ((p0 :: ptail).map (fun kv => kv.1 ++ "=" ++ kv.2))).length := by
      rw [show (String.intercalate "\n"
          ((p0 :: ptail).map (fun kv => kv.1 ++ "=" ++ kv.2))).length =
        (String.intercalate "\n"
          ((p0 :: ptail).map (fun kv => kv.1 ++ "=" ++ kv.2))).data.length from rfl]
      rw [intercalate_data, List.map_map, List.map_cons, charIntercalate_eq_flatten]
      rw [List.length_append]
      have h1 : 0 < ((p0.1 ++ "=" ++ p0.2).data).length := by
        rw [show (p0.1 ++ "=" ++ p0.2).data = p0.1.data ++ '=' :: p0.2.data from by
          simp [String.data_append]]
        simp [List.length_append]
      have h2 : ((String.data ∘ fun kv => kv.1 ++ "=" ++ kv.2) p0).length =
          ((p0.1 ++ "=" ++ p0.2).data).length := rfl
      omega
    have hdata : (envFileContent cmp vars).data =
        charIntercalate ['\n']
          ((p0 :: ptail).map (fun kv => (kv.1 ++ "=" ++ kv.2).data)) ++ ['\n'] := by
      unfold envFileContent
      dsimp only
      rw [hsort]
      rw [if_pos hpos]
      rw [String.data_append, intercalate_data, List.map_map]
      rfl
    have hnoNL : ∀ l ∈ (p0 :: ptail).map (fun kv => (kv.1 ++ "=" ++ kv.2).data),
        '\n' ∉ l := by
      intro l hl
      rcases List.mem_map.mp hl with ⟨kv, hkv, rfl⟩
      exact line_no_char kv.1 kv.2 '\n' (isEnvVarName_word kv.1 (hks kv hkv))
        (by decide) (by decide)
        (fun hm => absurd ((hvs kv hkv).1 '\n' hm) (by decide))
    have hnoCR : '\r' ∉ charIntercalate ['\n']
        ((p0 :: ptail).map (fun kv => (kv.1 ++ "=" ++ kv.2).data)) ++ ['\n'] := by
      intro hmem
      rcases List.mem_append.mp hmem with h1 | h1
      · rcases mem_charIntercalate _ _ h1 with h2 | h2
        · simp at h2
        · obtain ⟨l, hl, hcl⟩ := h2
          rcases List.mem_map.mp hl with ⟨kv, hkv, rfl⟩
          exact line_no_char kv.1 kv.2 '\r' (isEnvVarName_word kv.1 (hks kv hkv))
            (by decide) (by decide)
            (fun hm => absurd ((hvs kv hkv).1 '\r' hm) (by decide)) hcl
      · simp at h1
    unfold dotenvLineEntries
    rw [hdata]
    rw [normNL_eq_self _ hnoCR]
    rw [splitOnChar_charIntercalate _ (by simp) hnoNL]
    rw [List.filterMap_append]
    rw [show List.filterMap dotenvAcceptLine [[]] = [] from rfl]
    rw [List.append_nil]
    rw [List.filterMap_map]
    rw [filterMap_of_forall_some _ id (p0 :: ptail) (fun kv hm => by
      show dotenvAcceptLine ((kv.1 ++ "=" ++ kv.2).data) = some kv
      rw [show (kv.1 ++ "=" ++ kv.2).data = kv.1.data ++ '=' :: kv.2.data from by
        simp [String.data_append]]
      exact dotenvAcceptLine_keyval kv.1 kv.2 (hks kv hm) (hvs kv hm).1
        (hvs kv hm).2.1 (hvs kv hm).2.2)]
    rw [List.map_id]

theorem recordGet_eq_of_perm (r₁ r₂ : List (String × String))
    (hp : List.Perm r₁ r₂) (h₂ : (keysOf r₂).Nodup) (q : String) :
    recordGet r₁ q = recordGet r₂ q := by
  have h₁ : (keysOf r₁).Nodup := ((keysOf_perm hp).nodup_iff).mpr h₂
  cases hrg : recordGet r₁ q with
  | some v =>
    have hm := (recordGet_eq_some_iff_mem r₁ q v h₁).mp hrg
    exact ((recordGet_eq_some_iff_mem r₂ q v h₂).mpr (hp.mem_iff.mp hm)).symm
  | none =>
    cases hrg2 : recordGet r₂ q with
    | none => rfl
    | some v =>
      have hm := (recordGet_eq_some_iff_mem r₂ q v h₂).mp hrg2
      have hm1 := (recordGet_eq_some_iff_mem r₁ q v h₁).mpr (hp.mem_iff.mpr hm)
      rw [hrg] at hm1
      exact Option.noConfusion hm1

/-- Claim C5, counterexample: the pull write path (`envFileContent`) does not
quote, so a value wrapped in double quotes, a value with a leading space, and
a value containing a newline all come back changed from the re-parse — each
with a valid variable name. -/
theorem pullRoundTripAltersValues :
    isEnvVarName "A" = true ∧
    recordGet (parseDotenv (envFileContent cmp0 [("A", "\"x\"")])) "A" ≠
      recordGet [("A", "\"x\"")] "A" ∧
    recordGet (parseDotenv (envFileContent cmp0 [("A", " x")])) "A" ≠
      recordGet [("A", " x")] "A" ∧
    recordGet (parseDotenv (envFileContent cmp0 [("A", "x\ny")])) "A" ≠
      recordGet [("A", "x\ny")] "A" :=
  ⟨by decide, by decide, by decide, by decide⟩

/-- Claim C5, amended: for a variable set with distinct valid names whose
values contain no JS LineTerminator (LF, CR, U+2028 or U+2029), no leading or
trailing JS whitespace (the full `trim` class, including U+00A0 and the
other Unicode spaces), and are not wrapped in a matching pair of quotes, the
dotenv re-parse of the pull-written file content agrees with the original map
on every key (values containing `=` are preserved). -/
theorem envFileRoundTrip (cmp : String → String → Int)
    (vars : List (String × String)) (hnd : (keysOf vars).Nodup)
    (hk : ∀ kv ∈ vars, isEnvVarName kv.1 = true)
    (hv : ∀ kv ∈ vars, (∀ c ∈ kv.2.data, isJsLineTerminator c = false) ∧
      hasNoEdgeSpace kv.2 = true ∧ isQuoteWrapped kv.2 = false) (q : String) :
    recordGet (parseDotenv (envFileContent cmp vars)) q = recordGet vars q := by
  by_cases hvv : vars = []
  · subst hvv
    rfl
  · rw [recordGet_parseDotenv]
    rw [dotenvLineEntries_envFileContent cmp vars hvv hk hv]
    have hperm : List.Perm
        (List.insertionSort (fun a b => cmp a.1 b.1 ≤ 0) (jsObjectEntries vars)) vars :=
      (List.perm_insertionSort _ _).trans (jsObjectEntries_perm vars)
    have hnds : (keysOf
        (List.insertionSort (fun a b => cmp a.1 b.1 ≤ 0) (jsObjectEntries vars))).Nodup :=
      ((keysOf_perm hperm).nodup_iff).mpr hnd
    rw [assocLast_eq_recordGet _ q hnds]
    exact recordGet_eq_of_perm _ _ hperm hnd q

theorem envFileRoundTrip_witness :
    recordGet (parseDotenv (envFileContent cmp0 [("B", "2"), ("A", "x=y")])) "A" =
      recordGet [("B", "2"), ("A", "x=y")] "A" ∧
    recordGet (parseDotenv (envFileContent cmp0 [("B", "2"), ("A", "x=y")])) "B" =
      recordGet [("B", "2"), ("A", "x=y")] "B" ∧
    recordGet (parseDotenv (envFileContent cmp0 [("B", "2"), ("A", "x=y")])) "C" =
      recordGet [("B", "2"), ("A", "x=y")] "C" :=
  ⟨envFileRoundTrip cmp0 [("B", "2"), ("A", "x=y")] (by decide) (by decide)
      (by decide) "A",
    envFileRoundTrip cmp0 [("B", "2"), ("A", "x=y")] (by decide) (by decide)
      (by decide) "B",
    envFileRoundTrip cmp0 [("B", "2"), ("A", "x=y")] (by decide) (by decide)
      (by decide) "C"⟩

end BetterEnv
